import Mathlib

/-
Formal model of vcfcomparator.py (HaoxiangLin/VCFcomparator).

The source is a single Python file.  We shallow-embed the parts of the
program that the claims are about: the data model (the fields of a pyvcf
record that the program reads), the confidence-interval geometry
(get_conf_interval, get_overlap_coords, Variant.interval_score), the
matching predicates (vcfVariantMatch, vcfIntervalMatch, orientSV), the
unidirectional comparison loop compareVCFs (with its dedup ledger
used_B_interval and the faster-SNV cursor), and the counting functions of
class Comparison.

Python integers are Int, scores are rationals, exceptions
(AssertionError, IndexError, StopIteration-NameError, attribute errors)
are modeled by Option: a none result means the Python run raises.
-/

namespace VCFC

/-- The four variant classes used as keys of Comparison.vartype. -/
inductive VType where
  | SNV
  | INDEL
  | CNV
  | SV
deriving DecidableEq, Repr

/-- A variant record, mirroring the fields of a pyvcf record that
vcfcomparator.py reads: CHROM, POS, start, end, ID, REF, ALT (as the list
of str-rendered alternate alleles), FILTER (empty list means the filter
field is falsy, i.e. PASS), the INFO keys CIPOS, CIEND, END and SVTYPE,
and the record-class properties is_snp, is_indel, is_sv.  The record is
produced by the external parsing layer; the program only reads it. -/
structure Rec where
  chrom : String
  pos : Int
  start : Int
  endpos : Int
  id : String
  ref : String
  alt : List String
  filter : List String
  info_cipos : Option (List Int)
  info_ciend : Option (List Int)
  info_end : Option Int
  info_svtype : Option String
  is_snp : Bool
  is_indel : Bool
  is_sv : Bool
deriving DecidableEq, Repr

/-- The Variant class of the source (base of SNV/INDEL/SV/CNV): the
driving record recA (always a record at every construction site), the
at-most-once matched record recB, and the overflow list altmatch. -/
structure Variant where
  recA : Rec
  recB : Option Rec
  altmatch : List Rec
deriving DecidableEq, Repr

/-- Variant.set_left: sets record B only if it is not already set;
returns the updated variant and the boolean the Python method returns. -/
def Variant.set_left (v : Variant) (b : Rec) : Variant × Bool :=
  match v.recB with
  | none => ({ v with recB := some b }, true)
  | some _ => (v, false)

/-- Variant.matched: recA is always present, so the Python test
`self.recA and self.recB` reduces to recB being set. -/
def Variant.matched (v : Variant) : Bool :=
  v.recB.isSome

/-- Variant.has_pass: if unmatched, whether recA passes its filters
(Python: `not self.recA.FILTER`); if matched, whether either record
passes. -/
def Variant.has_pass (v : Variant) : Bool :=
  match v.recB with
  | none => v.recA.filter.isEmpty
  | some rb => v.recA.filter.isEmpty || rb.filter.isEmpty

/-- Variant.both_pass: matched and both filter fields falsy. -/
def Variant.both_pass (v : Variant) : Bool :=
  match v.recB with
  | none => false
  | some rb => v.recA.filter.isEmpty && rb.filter.isEmpty

/-- The absolute values the source takes from a CIPOS/CIEND list:
`if len == 2: map(abs, l) else: abs(l[0])`; an empty list raises
IndexError (none). -/
def ciBounds : List Int → Option (Int × Int)
  | [x, y] => some (abs x, abs y)
  | x :: _ => some (abs x, abs x)
  | [] => none

/-- The (cipos_start, cipos_end)-style pair for an optional INFO list:
zero offsets when the key is absent, else the ciBounds of the list. -/
def infoBounds : Option (List Int) → Option (Int × Int)
  | none => some ((0 : Int), (0 : Int))
  | some l => ciBounds l

/-- get_conf_interval(rec, w_indel=50): confidence interval
(start - ci, end + ci); if rec is an indel, w_indel padding is added.
Follows the source exactly: CIPOS lowers the start; the end defaults to
POS+1 plus the CIPOS upper offset, but when the END annotation is
present the end is END plus the CIEND upper offset instead. -/
def get_conf_interval (rec : Rec) (wIndel : Int) : Option (Int × Int) :=
  match infoBounds rec.info_cipos, infoBounds rec.info_ciend with
  | some (ciposStart, ciposEnd), some (_ciendStart, ciendEnd) =>
    let end0 : Int :=
      match rec.info_end with
      | some e => e + ciendEnd
      | none => rec.pos + 1 + ciposEnd
    if rec.is_indel then
      some (rec.pos - (ciposStart + wIndel), end0 + wIndel)
    else
      some (rec.pos - ciposStart, end0)
  | _, _ => none

/-- get_overlap_coords: start and end coordinates of the overlap between
iv_a and iv_b, or (0, 0) if there is no overlap. -/
def get_overlap_coords (ivA ivB : Int × Int) : Int × Int :=
  if min ivA.2 ivB.2 - max ivA.1 ivB.1 > 0 then
    (max ivA.1 ivB.1, min ivA.2 ivB.2)
  else
    (0, 0)

/-- Variant.interval_score with density=False: the Dice-style overlap
score 2*ol_width/(len_a+len_b).  The three Python asserts (positive
overlap width, positive interval lengths) are crash cases (none), as is
a missing recB or a malformed CIPOS/CIEND list.  The density=True branch
multiplies by normal-distribution cumulative densities computed by
scipy; every claim concerns density=False, so only that path is
modeled. -/
def Variant.interval_score (v : Variant) : Option ℚ :=
  match v.recB with
  | none => none
  | some rb =>
    match get_conf_interval v.recA 50, get_conf_interval rb 50 with
    | some ivA, some ivB =>
      let ol := get_overlap_coords ivA ivB
      let olWidth := ol.2 - ol.1
      if olWidth ≤ 0 then none
      else
        let lenA := ivA.2 - ivA.1
        let lenB := ivB.2 - ivB.1
        if lenA ≤ 0 then none
        else if lenB ≤ 0 then none
        else some ((2 * (olWidth : ℚ)) / ((lenA : ℚ) + (lenB : ℚ)))
    | _, _ => none

/-- Per-subclass score(density=False): SNV.score is 1 when matched and 0
otherwise; INDEL/SV/CNV score by interval_score when matched. -/
def Variant.score (vt : VType) (v : Variant) : Option ℚ :=
  match vt with
  | .SNV => some (if v.matched then 1 else 0)
  | _ => if v.matched then v.interval_score else some 0

/-- Whether a character is in the regex class [A-Z]. -/
def isUpperAZ (c : Char) : Bool :=
  'A' ≤ c && c ≤ 'Z'

/-- orientSV: classify a breakend ALT string by its leading characters,
as the four anchored regexes of the source do; an unrecognized string is
returned unchanged. -/
def orientSV (alt : String) : String :=
  match alt.data with
  | c0 :: c1 :: _ =>
    if isUpperAZ c0 && (c1 = '[') then "right_of_p_after_t"
    else if isUpperAZ c0 && (c1 = ']') then "left_of_p_after_t"
    else if c0 = ']' then "left_of_p_before_t"
    else if c0 = '[' then "right_of_p_before_t"
    else alt
  | [c0] =>
    if c0 = ']' then "left_of_p_before_t"
    else if c0 = '[' then "right_of_p_before_t"
    else alt
  | [] => alt

/-- vcfIntervalMatch: SV/CNV interval match using POS/END/CIPOS/CIEND.
The source asserts equal SVTYPE, then tests whether the sum of the
overlap coordinates is positive. -/
def vcfIntervalMatch (a b : Rec) : Option Bool :=
  if a.info_svtype = b.info_svtype then
    match get_conf_interval a 50, get_conf_interval b 50 with
    | some ivA, some ivB =>
      let ol := get_overlap_coords ivA ivB
      some (decide (ol.1 + ol.2 > 0))
    | _, _ => none
  else none

/-- vcfVariantMatch: the per-type eligibility predicate.  SNVs need equal
POS, REF and ALT; indels need equal REF and ALT; BND structural variants
need equal breakend orientation of ALT[0] and interval overlap.  The
source is a sequence of guarded returns, equivalent to this else-if
chain; accessing ALT[0] of an empty ALT raises (none). -/
def vcfVariantMatch (a b : Rec) : Option Bool :=
  if a.is_snp ∧ b.is_snp ∧ a.pos = b.pos ∧ a.ref = b.ref ∧ a.alt = b.alt then
    some true
  else if a.is_indel ∧ b.is_indel ∧ a.ref = b.ref ∧ a.alt = b.alt then
    some true
  else if a.is_sv ∧ b.is_sv ∧ a.info_svtype = some ("BND") ∧ b.info_svtype = some ("BND") then
    match a.alt.head?, b.alt.head? with
    | some altA, some altB =>
      if orientSV altA = orientSV altB then vcfIntervalMatch a b
      else some false
    | _, _ => none
  else some false

/-- Comparison: the per-type lists of Variant entities built by one
directional pass (the vartype dict of the source). -/
structure Comparison where
  snv : List Variant
  indel : List Variant
  cnv : List Variant
  sv : List Variant
deriving DecidableEq, Repr

def Comparison.get (c : Comparison) : VType → List Variant
  | .SNV => c.snv
  | .INDEL => c.indel
  | .CNV => c.cnv
  | .SV => c.sv

def Comparison.empty : Comparison :=
  ⟨[], [], [], []⟩

def Comparison.add (c : Comparison) (vt : VType) (v : Variant) : Comparison :=
  match vt with
  | .SNV => { c with snv := c.snv ++ [v] }
  | .INDEL => { c with indel := c.indel ++ [v] }
  | .CNV => { c with cnv := c.cnv ++ [v] }
  | .SV => { c with sv := c.sv ++ [v] }

/-- Comparison.matched(vtype): number of matched variants of the type. -/
def Comparison.matched (c : Comparison) (vt : VType) : Nat :=
  (c.get vt).countP (fun v => v.matched)

/-- Comparison.altmatched(vtype): total number of alternate matches. -/
def Comparison.altmatched (c : Comparison) (vt : VType) : Nat :=
  (c.get vt).foldl (fun n v => n + v.altmatch.length) 0

/-- Comparison.count_agree_fail(vtype): the source counts the entries
whose has_pass() is False (the docstring says: matches that agree on not
passing filters). -/
def Comparison.count_agree_fail (c : Comparison) (vt : VType) : Nat :=
  (c.get vt).countP (fun v => v.has_pass = false)

/-- Comparison.count_agree_pass(vtype): entries where both calls pass. -/
def Comparison.count_agree_pass (c : Comparison) (vt : VType) : Nat :=
  (c.get vt).countP (fun v => v.both_pass)

/-- Comparison.sum_scores(vtype, weight=False): left fold of the scores;
a score exception propagates. -/
def Comparison.sum_scores (c : Comparison) (vt : VType) : Option ℚ :=
  (c.get vt).foldlM (fun acc v =>
    match Variant.score vt v with
    | none => none
    | some s => some (acc + s)) (0 : ℚ)

/-- Modelled from the spec: the external VariantSource region query
`fetch(chromosome, start, end)` (provided by the excluded pyvcf/tabix
I/O layer, not part of src/) returns the records of the source whose
genomic extent intersects [start, end], in the source's coordinate
order. -/
def fetch (source : List Rec) (chrom : String) (qstart qend : Int) : List Rec :=
  source.filter (fun r =>
    decide (r.chrom = chrom ∧ r.start ≤ qend ∧ qstart ≤ r.endpos))

/-- The candidate loop of compareVCFs over the records returned by the
region query, carrying the variant being built, the match flag and the
per-pass ledger used_B_interval (keyed in the source by sv_uid, a
string rendering of the whole record, modeled as the record itself).
When a candidate is eligible: after a match it goes to altmatch; before
a match the source asserts recB is still unset (none = AssertionError),
sends a ledger-blocked candidate (interval types only) to altmatch, and
otherwise claims it via set_left and records it in the ledger. -/
def scanCands (a : Rec) (iI : Bool) :
    List Rec → Variant → Bool → List Rec → Option (Variant × Bool × List Rec)
  | [], v, m, used => some (v, m, used)
  | b :: bs, v, m, used =>
    match vcfVariantMatch a b with
    | none => none
    | some t =>
      if t then
        if m then
          scanCands a iI bs { v with altmatch := v.altmatch ++ [b] } m used
        else if v.recB.isSome then none
        else if iI && decide (b ∈ used) then
          scanCands a iI bs { v with altmatch := v.altmatch ++ [b] } false used
        else
          let p := v.set_left b
          if p.2 then scanCands a iI bs p.1 true (used ++ [b])
          else scanCands a iI bs p.1 false used
      else scanCands a iI bs v m used

/-- The initializer of the faster-SNV cursor: read records of B until the
first SNV; if the stream ends first the cursor keeps the last (non-SNV)
record with nothing left to read. -/
def skipToSNV : Rec → List Rec → Rec × List Rec
  | c, [] => (c, [])
  | c, b :: bs => if c.is_snp then (c, b :: bs) else skipToSNV b bs

/-- Cursor initialization over source B: with no records at all the
Python variable snv_recB is never assigned (a later use raises
NameError), modeled as a none cursor. -/
def initCursor : List Rec → Option (Rec × List Rec)
  | [] => none
  | b :: bs => some (skipToSNV b bs)

/-- The faster-SNV advance loop: while the cursor record trails the
current A record (different CHROM or smaller POS), read the next record
of B, testing each one read; on exhaustion keep the last record read. -/
def advanceCursor (a : Rec) :
    Variant → Bool → Rec → List Rec → Option (Variant × Bool × (Rec × List Rec))
  | v, m, c, rest =>
    if c.chrom ≠ a.chrom ∨ c.pos < a.pos then
      match rest with
      | [] => some (v, m, (c, []))
      | c' :: rest' =>
        match vcfVariantMatch a c' with
        | none => none
        | some t =>
          if t then advanceCursor a (v.set_left c').1 true c' rest'
          else advanceCursor a v m c' rest'
    else some (v, m, (c, rest))

/-- The vtype classification of compareVCFs: SNV when is_snp, else INDEL
when is_indel, else SV when is_sv with SVTYPE BND (CNV is a TODO in the
source and never assigned); other records are skipped. -/
def vtypeOf (a : Rec) : Option VType :=
  if a.is_snp then some .SNV
  else if a.is_indel then some .INDEL
  else if a.is_sv ∧ a.info_svtype = some ("BND") then some .SV
  else none

/-- The fetch window half-width chosen by compareVCFs for each vtype. -/
def widthOf (wIndel wSv : Int) : Option VType → Int
  | some .INDEL => wIndel
  | some .SV => wSv
  | _ => 0

/-- Whether a vtype takes the interval treatment (the dedup-ledger check
`vtype in ('INDEL','SV','CNV')`). -/
def isIntervalType : Option VType → Bool
  | some .INDEL => true
  | some .SV => true
  | some .CNV => true
  | _ => false

/-- The mutable state of one directional pass: the Comparison being
built, the dedup ledger used_B_interval, and the faster-SNV cursor
(current record of B and unread remainder). -/
structure PassState where
  cmp : Comparison
  used : List Rec
  cursor : Option (Rec × List Rec)

/-- The body of the per-record loop of compareVCFs.  Records with a
known vtype go through the region-query path unless faster_snv is set
and the record is an SNV, in which case the co-advancing cursor over B's
record stream is used instead. -/
def stepRec (wIndel wSv : Int) (fasterSnv : Bool) (B : List Rec)
    (st : PassState) (a : Rec) : Option PassState :=
  match vtypeOf a with
  | none => some st
  | some t =>
    let w := widthOf wIndel wSv (some t)
    let v0 : Variant := ⟨a, none, []⟩
    if ¬ fasterSnv ∨ isIntervalType (some t) then
      let wStart := if a.start - w < 1 then 1 else a.start - w
      let cands := fetch B a.chrom wStart (a.endpos + w)
      match scanCands a (isIntervalType (some t)) cands v0 false st.used with
      | none => none
      | some (v1, _, used1) =>
        some { st with cmp := st.cmp.add t v1, used := used1 }
    else
      match st.cursor with
      | none => none
      | some (c, rest) =>
        match vcfVariantMatch a c with
        | none => none
        | some tst =>
          if tst then
            some { st with cmp := st.cmp.add t (v0.set_left c).1 }
          else
            match advanceCursor a v0 false c rest with
            | none => none
            | some (v1, _, cur2) =>
              some { st with cmp := st.cmp.add t v1, cursor := some cur2 }

/-- compareVCFs(h_vcfA, h_interval_vcfB, w_indel=50, w_sv=1000, mask=None,
faster_snv=False): the unidirectional comparison A --> B.  Source A is
consumed sequentially; source B serves both the region queries and the
sequential SNV cursor stream (the source reopens the same file for the
latter).  The mask argument is declared but not implemented. -/
def compareVCFs (A B : List Rec) (wIndel wSv : Int) (fasterSnv : Bool) :
    Option Comparison :=
  match A.foldlM (stepRec wIndel wSv fasterSnv B) ⟨Comparison.empty, [], initCursor B⟩ with
  | none => none
  | some st => some st.cmp

/-- The eligible candidates among a region-query result, in query order. -/
def eligList (a : Rec) (cands : List Rec) : List Rec :=
  cands.filter (fun b => decide (vcfVariantMatch a b = some true))

/-- The anchored breakend regexes of orientSV, as one recognizer:
an [A-Z] character followed by a bracket, or a leading bracket. -/
def matchesBndPattern (s : String) : Bool :=
  match s.data with
  | [] => false
  | c0 :: rest =>
    (isUpperAZ c0 && (match rest with
      | c1 :: _ => decide (c1 = '[') || decide (c1 = ']')
      | [] => false))
    || decide (c0 = ']') || decide (c0 = '[')

/-- The confidence-interval rule exactly as claim C7 states it, read as
a sequence of independent clauses: CIPOS lowers the start; END replaces
pos+1 as the raw upper bound, otherwise the CIPOS upper offset is folded
into the default end; the CIEND upper offset further expands the upper
bound whenever CIEND is present; indels are padded by w_indel on both
sides. -/
def claimConfInterval (rec : Rec) (wIndel : Int) : Option (Int × Int) :=
  match infoBounds rec.info_cipos, infoBounds rec.info_ciend with
  | some (ciposStart, ciposEnd), some (_ciendStart, ciendEnd) =>
    let pad : Int := if rec.is_indel then wIndel else 0
    let upperRaw : Int :=
      match rec.info_end with
      | some e => e
      | none => rec.pos + 1 + ciposEnd
    some (rec.pos - ciposStart - pad, upperRaw + ciendEnd + pad)
  | _, _ => none

/-- Claim C7 as amended: the same rule except that the CIEND upper
offset expands the upper bound only when the explicit END annotation is
present (it is folded into END); with no END annotation CIEND is
ignored. -/
def claimConfIntervalAmended (rec : Rec) (wIndel : Int) : Option (Int × Int) :=
  match infoBounds rec.info_cipos, infoBounds rec.info_ciend with
  | some (ciposStart, ciposEnd), some (_ciendStart, ciendEnd) =>
    let pad : Int := if rec.is_indel then wIndel else 0
    let upperRaw : Int :=
      match rec.info_end with
      | some e => e + ciendEnd
      | none => rec.pos + 1 + ciposEnd
    some (rec.pos - ciposStart - pad, upperRaw + pad)
  | _, _ => none

/- Sample records used by the concrete witness and counterexample
theorems below. -/

/-- A canonical SNV record of source A: chr1:100 A>G. -/
def snvA : Rec :=
  { chrom := "chr1", pos := 100, start := 99, endpos := 100, id := "a1",
    ref := "A", alt := ["G"], filter := [], info_cipos := none,
    info_ciend := none, info_end := none, info_svtype := none,
    is_snp := true, is_indel := false, is_sv := false }

/-- A matching SNV record of source B at the same locus. -/
def snvB1 : Rec :=
  { snvA with id := "b1" }

/-- A second, distinct matching SNV record of source B at the same
locus (VCF permits several records at one site). -/
def snvB2 : Rec :=
  { snvA with id := "b2" }

/-- An SNV identical to snvA but placed on chromosome 2. -/
def snvChr2 : Rec :=
  { snvA with id := "bX", chrom := "chr2" }

/-- A record carrying CIEND but no END annotation. -/
def recCiendOnly : Rec :=
  { snvA with id := "ce", info_ciend := some [5, 5] }

/-- A record whose END annotation lies behind POS, giving a confidence
interval of negative width. -/
def recNegWidth : Rec :=
  { snvA with id := "neg", info_end := some 89 }

/-- An unmatched Variant whose driving record fails its filters. -/
def vUnmatchedFail : Variant :=
  ⟨{ snvA with filter := ["q10"] }, none, []⟩

/-- A BND structural-variant record with a right-of-p-after-t breakend
and a wide CIPOS interval. -/
def svA : Rec :=
  { chrom := "chr1", pos := 1000, start := 999, endpos := 1000, id := "svA",
    ref := "N", alt := ["N[chr2:500["], filter := [],
    info_cipos := some [-100, 100], info_ciend := none, info_end := none,
    info_svtype := some ("BND"), is_snp := false, is_indel := false,
    is_sv := true }

/-- A BND record with the same orientation, shifted 50 bases. -/
def svB : Rec :=
  { svA with id := "svB", pos := 1050, start := 1049, endpos := 1050 }

/-- A BND record at svB's locus with the opposite breakend orientation. -/
def svBopp : Rec :=
  { svB with id := "svO", alt := ["]chr2:500]N"] }

/-- A BND record whose ALT matches none of the four breakend regexes. -/
def svU1 : Rec :=
  { svA with id := "svU1", alt := ["<INS>"] }

/-- A second unrecognized-ALT BND record overlapping svU1. -/
def svU2 : Rec :=
  { svB with id := "svU2", alt := ["<INS>"] }

/-- A BND record whose END annotation lies behind POS. -/
def svNegWidth : Rec :=
  { svA with id := "svNeg", info_cipos := none, info_end := some 800 }

/-- A BND record near the start of the chromosome whose large CIPOS
lower offset drives the confidence-interval lower bound negative:
POS 100 with CIPOS=[-250,0] gives the interval (-150, 101). -/
def svNegLow1 : Rec :=
  { svA with id := "svL1", pos := 100, start := 99, endpos := 100, info_cipos := some [-250, 0] }

/-- A second, distinct record with the same coordinates, orientation
and confidence interval as svNegLow1. -/
def svNegLow2 : Rec :=
  { svNegLow1 with id := "svL2" }

/-- The region-query window test of compareVCFs for a driving record a
with half-width w, applied to a candidate b of the other source:
b.chrom matches and the extent of b intersects the clamped window
[max(a.start-w, 1), a.endpos+w]. -/
def windowHit (w : Int) (a b : Rec) : Bool :=
  decide (b.chrom = a.chrom) && decide (b.start ≤ a.endpos + w) &&
    decide ((if a.start - w < 1 then 1 else a.start - w) ≤ b.endpos)

/-- Full eligibility of a candidate b for driving record a in one
directional pass: the matching predicate holds and b lies in the region
query window (with the half-width determined by a's vtype). -/
def Elig (wIndel wSv : Int) (a b : Rec) : Bool :=
  decide (vcfVariantMatch a b = some true) &&
    windowHit (widthOf wIndel wSv (vtypeOf a)) a b

/-- Whether some record of the other source is eligible for a. -/
def hasPartner (wIndel wSv : Int) (B : List Rec) (a : Rec) : Bool :=
  B.any (fun b => Elig wIndel wSv a b)

/-- The record-class flags of a well-formed record are mutually
exclusive (as the pyvcf properties is_snp / is_indel / is_sv are). -/
def exclusiveFlags (r : Rec) : Prop :=
  (r.is_snp = true → r.is_indel = false ∧ r.is_sv = false) ∧
    (r.is_indel = true → r.is_sv = false)

instance (r : Rec) : Decidable (exclusiveFlags r) := by
  unfold exclusiveFlags
  infer_instance

/-- A plain SNV record on chromosome chr in the canonical pyvcf
coordinate form (start = POS-1, end = POS, POS at least 1). -/
def snvRecOn (chr : String) (r : Rec) : Prop :=
  r.is_snp = true ∧ r.is_indel = false ∧ r.is_sv = false ∧
    r.chrom = chr ∧ r.start = r.pos - 1 ∧ r.endpos = r.pos ∧ 1 ≤ r.pos

instance (chr : String) (r : Rec) : Decidable (snvRecOn chr r) := by
  unfold snvRecOn
  infer_instance

/-- The first record of the other source that the matching predicate
accepts for a (the unique one, when positions are strictly sorted). -/
def snvPartner (a : Rec) (B : List Rec) : Option Rec :=
  B.find? (fun b => decide (vcfVariantMatch a b = some true))

/-! Theorems about the claims. -/

/-- Claim C5: for every pair of SNV records, vcfVariantMatch declares
them eligible if and only if they have identical position, identical
reference allele and identical alternate alleles (the ALT sequence as
the source compares it), with no interval tolerance. -/
theorem claim_C5 (a b : Rec)
    (ha1 : a.is_snp = true) (ha2 : a.is_indel = false) (ha3 : a.is_sv = false)
    (hb1 : b.is_snp = true) (hb2 : b.is_indel = false) (hb3 : b.is_sv = false) :
    vcfVariantMatch a b = some true ↔
      a.pos = b.pos ∧ a.ref = b.ref ∧ a.alt = b.alt := by
  unfold vcfVariantMatch
  simp [ha1, ha2, ha3, hb1, hb2, hb3]

/-- Witness for claim C5 at a concrete pair of SNV records. -/
theorem claim_C5_witness :
    snvA.is_snp = true ∧
      (vcfVariantMatch snvA snvB1 = some true ↔
        snvA.pos = snvB1.pos ∧ snvA.ref = snvB1.ref ∧ snvA.alt = snvB1.alt) :=
  ⟨rfl, claim_C5 snvA snvB1 rfl rfl rfl rfl rfl rfl⟩

/-- Claim C9 (evidence of the divergence): count_agree_fail is not
restricted to matched pairs: a comparison whose SNV list holds a single
unmatched Variant with a failing filter reports agree_fail = 1 although
it contains no matched pair at all. -/
theorem claim_C9 :
    (Comparison.mk [vUnmatchedFail] [] [] []).count_agree_fail .SNV = 1 ∧
      vUnmatchedFail.matched = false ∧ vUnmatchedFail.has_pass = false := by
  decide

/-- An ALT string matching none of the four breakend regexes is returned
unchanged by orientSV. -/
lemma orientSV_unrecognized (s : String) (h : matchesBndPattern s = false) :
    orientSV s = s := by
  unfold matchesBndPattern at h
  unfold orientSV
  rcases hd : s.data with _ | ⟨c0, _ | ⟨c1, rest⟩⟩ <;> rw [hd] at h <;>
    simp_all <;> split_ifs <;> simp_all

/-- Claim C10: an alternate-allele string matching none of the four
breakend bracket patterns is returned unchanged by orientSV, so two BND
records with the same unrecognized ALT string have identical breakend
orientation, and their eligibility reduces to the interval test. -/
theorem claim_C10 (a b : Rec) (s : String)
    (hnp : matchesBndPattern s = false)
    (ha1 : a.is_snp = false) (ha2 : a.is_indel = false) (ha3 : a.is_sv = true)
    (hb1 : b.is_snp = false) (hb2 : b.is_indel = false) (hb3 : b.is_sv = true)
    (hta : a.info_svtype = some ("BND")) (htb : b.info_svtype = some ("BND"))
    (hsa : a.alt.head? = some s) (hsb : b.alt.head? = some s) :
    orientSV s = s ∧ vcfVariantMatch a b = vcfIntervalMatch a b := by
  refine ⟨orientSV_unrecognized s hnp, ?_⟩
  unfold vcfVariantMatch
  simp [ha1, ha2, ha3, hb1, hb2, hb3, hta, htb, hsa, hsb]

/-- Witness for claim C10 at a concrete pair of BND records whose ALT is
the unrecognized string INS. -/
theorem claim_C10_witness :
    matchesBndPattern ("<INS>") = false ∧
      (orientSV ("<INS>") = ("<INS>") ∧
        vcfVariantMatch svU1 svU2 = vcfIntervalMatch svU1 svU2) :=
  ⟨by decide,
    claim_C10 svU1 svU2 ("<INS>") (by decide) rfl rfl rfl rfl rfl rfl rfl rfl
      (by decide) (by decide)⟩

/-- Claim C7 counterexample: on a record carrying CIEND but no END
annotation the rule as stated (CIEND always expands the upper bound)
disagrees with get_conf_interval, which ignores CIEND when END is
absent. -/
theorem claim_C7_counterexample :
    claimConfInterval recCiendOnly 50 = some (100, 106) ∧
      get_conf_interval recCiendOnly 50 = some (100, 101) ∧
      claimConfInterval recCiendOnly 50 ≠ get_conf_interval recCiendOnly 50 := by
  decide

/-- Claim C7 as amended: get_conf_interval computes exactly the stated
rule with the one correction that the CIEND upper offset is folded into
the explicit END annotation and ignored when END is absent. -/
theorem claim_C7 (rec : Rec) (wIndel : Int) :
    get_conf_interval rec wIndel = claimConfIntervalAmended rec wIndel := by
  unfold get_conf_interval claimConfIntervalAmended
  cases hc : infoBounds rec.info_cipos with
  | none => rfl
  | some p =>
    cases he : infoBounds rec.info_ciend with
    | none => rfl
    | some q =>
      obtain ⟨cs, ce⟩ := p
      obtain ⟨es, ee⟩ := q
      cases hend : rec.info_end <;> cases hi : rec.is_indel <;>
        simp [hend, hi, Prod.ext_iff] <;> omega

/-- The interval-score computation fails (assertion) when the interval
of the driving record has non-positive width. -/
lemma interval_score_nonpos (v : Variant) (rb : Rec) (iv : Int × Int)
    (hrb : v.recB = some rb)
    (hiv : get_conf_interval v.recA 50 = some iv) (hw : iv.2 - iv.1 ≤ 0) :
    v.interval_score = none := by
  unfold Variant.interval_score
  simp only [hrb]
  cases hB : get_conf_interval rb 50 with
  | none => simp [hiv, hB]
  | some ivB =>
    have holw : (get_overlap_coords iv ivB).2 - (get_overlap_coords iv ivB).1 ≤ 0 := by
      unfold get_overlap_coords
      split
      · rename_i h
        exfalso
        have h1 : min iv.2 ivB.2 ≤ iv.2 := min_le_left _ _
        have h2 : iv.1 ≤ max iv.1 ivB.1 := le_max_left _ _
        omega
      · simp
    have holw2 : (get_overlap_coords iv ivB).2 ≤ (get_overlap_coords iv ivB).1 := by
      omega
    simp [hiv, hB, holw, holw2]

/-- The per-type score of a matched interval-type variant propagates an
interval_score failure. -/
lemma score_none_of_interval (vt : VType) (v : Variant) (hvt : vt ≠ .SNV)
    (hm : v.matched = true) (hs : v.interval_score = none) :
    Variant.score vt v = none := by
  unfold Variant.score
  cases vt with
  | SNV => exact absurd rfl hvt
  | INDEL => simp [hm, hs]
  | CNV => simp [hm, hs]
  | SV => simp [hm, hs]

/-- A none score of any member makes the monadic score fold fail. -/
lemma sum_scores_none_aux (vt : VType) (v : Variant)
    (hs : Variant.score vt v = none) :
    ∀ l : List Variant, v ∈ l → ∀ acc : ℚ,
      l.foldlM (fun acc v =>
        match Variant.score vt v with
        | none => none
        | some s => some (acc + s)) acc = none := by
  intro l
  induction l with
  | nil => intro hv; cases hv
  | cons x xs ih =>
    intro hv acc
    rcases List.mem_cons.mp hv with h | h
    · subst h
      simp [List.foldlM_cons, hs]
    · cases hx : Variant.score vt x with
      | none => simp [List.foldlM_cons, hx]
      | some s =>
        simp only [List.foldlM_cons, hx]
        exact ih h _

/-- Claim C8 as amended: the non-positive-width assertion lives in the
scoring path, not in get_conf_interval itself: whenever the scores of a
comparison are summed over an interval type whose list contains a
matched variant with a non-positive-width confidence interval, the
computation fails (the assertion propagates). -/
theorem claim_C8 (c : Comparison) (vt : VType) (v : Variant) (rb : Rec)
    (iv : Int × Int) (hvt : vt ≠ .SNV) (hv : v ∈ c.get vt)
    (hrb : v.recB = some rb) (hiv : get_conf_interval v.recA 50 = some iv)
    (hw : iv.2 - iv.1 ≤ 0) :
    c.sum_scores vt = none := by
  have hm : v.matched = true := by simp [Variant.matched, hrb]
  have h1 := interval_score_nonpos v rb iv hrb hiv hw
  have h2 := score_none_of_interval vt v hvt hm h1
  unfold Comparison.sum_scores
  exact sum_scores_none_aux vt v h2 (c.get vt) hv 0

/-- Witness for claim C8 at a concrete matched BND pair whose driving
record has a negative-width confidence interval. -/
theorem claim_C8_witness :
    get_conf_interval svNegWidth 50 = some (1000, 800) ∧
      (Comparison.mk [] [] [] [⟨svNegWidth, some svB, []⟩]).sum_scores .SV = none :=
  ⟨by decide,
    claim_C8 (Comparison.mk [] [] [] [⟨svNegWidth, some svB, []⟩]) .SV
      ⟨svNegWidth, some svB, []⟩ svB (1000, 800) (by decide) (by decide) rfl
      (by decide) (by decide)⟩

/-- Claim C8 counterexample: a record whose expanded confidence interval
has negative width, for which the confidence-interval computation
succeeds and a whole comparison run (matching and score summation)
completes without any error, because the record is an SNV and SNV
scoring never touches intervals. -/
theorem claim_C8_counterexample :
    (get_conf_interval recNegWidth 50 = some (100, 89) ∧ (89 : Int) - 100 ≤ 0) ∧
      compareVCFs [recNegWidth] [recNegWidth] 50 1000 false =
        some (Comparison.mk [⟨recNegWidth, some recNegWidth, []⟩] [] [] []) ∧
      (Comparison.mk [⟨recNegWidth, some recNegWidth, []⟩] [] [] []).sum_scores
        .SNV = some 1 := by
  refine ⟨by decide, by decide, ?_⟩
  norm_num [Comparison.sum_scores, Comparison.get, Variant.score, Variant.matched,
    List.foldlM]

/-- Claim C2: for a matched pair whose confidence intervals have
positive widths and positive overlap width, interval_score (the
density=False path) is exactly the Dice value 2w/(lenA+lenB), which
lies in (0, 1] and equals 1 exactly when the two intervals are
identical. -/
theorem claim_C2 (v : Variant) (rb : Rec) (ivA ivB : Int × Int)
    (hrb : v.recB = some rb)
    (hA : get_conf_interval v.recA 50 = some ivA)
    (hB : get_conf_interval rb 50 = some ivB)
    (hlenA : 0 < ivA.2 - ivA.1) (hlenB : 0 < ivB.2 - ivB.1)
    (hol : 0 < min ivA.2 ivB.2 - max ivA.1 ivB.1) :
    ∃ s : ℚ,
      v.interval_score = some s ∧
      s = 2 * ((min ivA.2 ivB.2 - max ivA.1 ivB.1 : Int) : ℚ) /
          (((ivA.2 - ivA.1 : Int) : ℚ) + ((ivB.2 - ivB.1 : Int) : ℚ)) ∧
      0 < s ∧ s ≤ 1 ∧ (s = 1 ↔ ivA = ivB) := by
  obtain ⟨al, ah⟩ := ivA
  obtain ⟨bl, bh⟩ := ivB
  dsimp only at hlenA hlenB hol ⊢
  have hov : get_overlap_coords (al, ah) (bl, bh) = (max al bl, min ah bh) := by
    unfold get_overlap_coords
    rw [if_pos]
    omega
  have hscore : v.interval_score =
      some (2 * ((min ah bh - max al bl : Int) : ℚ) /
        (((ah - al : Int) : ℚ) + ((bh - bl : Int) : ℚ))) := by
    unfold Variant.interval_score
    simp only [hrb, hA, hB, hov]
    rw [if_neg (by omega), if_neg (by omega), if_neg (by omega)]
  have hwA : min ah bh - max al bl ≤ ah - al := by omega
  have hwB : min ah bh - max al bl ≤ bh - bl := by omega
  have hLz : (0 : ℤ) < (ah - al) + (bh - bl) := by omega
  have hL : (0 : ℚ) < ((ah - al : Int) : ℚ) + ((bh - bl : Int) : ℚ) := by
    exact_mod_cast hLz
  have hwq : (0 : ℚ) < ((min ah bh - max al bl : Int) : ℚ) := by exact_mod_cast hol
  refine ⟨_, hscore, rfl, ?_, ?_, ?_⟩
  · exact div_pos (by linarith) hL
  · rw [div_le_one hL]
    have : (2 * (min ah bh - max al bl) : ℤ) ≤ (ah - al) + (bh - bl) := by omega
    exact_mod_cast this
  · rw [div_eq_one_iff_eq (ne_of_gt hL)]
    constructor
    · intro h
      have h' : (2 * (min ah bh - max al bl) : ℤ) = (ah - al) + (bh - bl) := by
        exact_mod_cast h
      have h1 : al = bl := by omega
      have h2 : ah = bh := by omega
      simp [h1, h2]
    · intro h
      rw [Prod.mk.injEq] at h
      obtain ⟨h1, h2⟩ := h
      subst h1
      subst h2
      push_cast
      rw [min_self, max_self]
      ring

/-- Claim C6 counterexample: two distinct BND records with identical
breakend orientation and identical, overlapping confidence intervals
(-150, 101) — the lower bound driven negative by CIPOS=[-250,0] — are
NOT declared eligible, because the source tests
sum(get_overlap_coords(...)) > 0 rather than interval overlap, and here
the overlap coordinates sum to -49. -/
theorem claim_C6_counterexample :
    get_conf_interval svNegLow1 50 = some (-150, 101) ∧
      get_conf_interval svNegLow2 50 = some (-150, 101) ∧
      svNegLow1.info_svtype = some ("BND") ∧
      svNegLow2.info_svtype = some ("BND") ∧
      svNegLow1.alt.head? = svNegLow2.alt.head? ∧
      max (-150 : Int) (-150 : Int) < min (101 : Int) (101 : Int) ∧
      get_overlap_coords (-150, 101) (-150, 101) = (-150, 101) ∧
      vcfVariantMatch svNegLow1 svNegLow2 = some false := by
  decide

/-- Claim C6 as amended: for every pair of SV records (with a first
alternate allele and well-formed annotations), vcfVariantMatch declares
them eligible iff both declare SVTYPE BND, the breakend orientations
derived from their alternate alleles are identical, and the SUM of the
overlap coordinates of their confidence intervals is positive — the
source tests sum(get_overlap_coords(...)) > 0, not interval overlap.
For intervals with nonnegative coordinates the two coincide, but an
interval whose lower bound is driven negative by a large CIPOS offset
can overlap with a non-positive sum, and then the records are not
eligible even with identical orientation. -/
theorem claim_C6 (a b : Rec) (sa sb : String) (ivA ivB : Int × Int)
    (ha1 : a.is_snp = false) (ha2 : a.is_indel = false) (ha3 : a.is_sv = true)
    (hb1 : b.is_snp = false) (hb2 : b.is_indel = false) (hb3 : b.is_sv = true)
    (hsa : a.alt.head? = some sa) (hsb : b.alt.head? = some sb)
    (hiva : get_conf_interval a 50 = some ivA)
    (hivb : get_conf_interval b 50 = some ivB) :
    vcfVariantMatch a b = some true ↔
      (a.info_svtype = some ("BND") ∧ b.info_svtype = some ("BND") ∧
        orientSV sa = orientSV sb ∧
        0 < (get_overlap_coords ivA ivB).1 + (get_overlap_coords ivA ivB).2) := by
  unfold vcfVariantMatch
  rw [if_neg (by simp [ha1]), if_neg (by simp [ha2])]
  by_cases hbnd : a.info_svtype = some ("BND") ∧ b.info_svtype = some ("BND")
  · obtain ⟨hA, hB⟩ := hbnd
    rw [if_pos ⟨by simp [ha3], by simp [hb3], hA, hB⟩]
    simp only [hsa, hsb]
    by_cases hor : orientSV sa = orientSV sb
    · rw [if_pos hor]
      unfold vcfIntervalMatch
      rw [if_pos (hA.trans hB.symm)]
      simp only [hiva, hivb]
      simp [hA, hB, hor]
    · rw [if_neg hor]
      exact ⟨fun h => by simp at h, fun h => absurd h.2.2.1 hor⟩
  · rw [if_neg (by
      intro hc
      exact hbnd ⟨hc.2.2.1, hc.2.2.2⟩)]
    exact ⟨fun h => by simp at h, fun hc => absurd ⟨hc.1, hc.2.1⟩ hbnd⟩

/-- Witness for claim C6 (as amended) at a concrete pair of
same-orientation BND records with overlapping, positive-coordinate
confidence intervals. -/
theorem claim_C6_witness :
    get_conf_interval svA 50 = some (900, 1101) ∧
      (vcfVariantMatch svA svB = some true ↔
        (svA.info_svtype = some ("BND") ∧ svB.info_svtype = some ("BND") ∧
          orientSV ("N[chr2:500[") = orientSV ("N[chr2:500[") ∧
          0 < (get_overlap_coords ((900 : Int), (1101 : Int)) ((950 : Int), (1151 : Int))).1 +
            (get_overlap_coords ((900 : Int), (1101 : Int)) ((950 : Int), (1151 : Int))).2)) := by
  refine ⟨by decide, ?_⟩
  exact claim_C6 svA svB ("N[chr2:500[") ("N[chr2:500[") ((900 : Int), (1101 : Int))
    ((950 : Int), (1151 : Int)) rfl rfl rfl rfl rfl rfl (by decide) (by decide)
    (by decide) (by decide)

/-- After the match flag is set, every further eligible candidate is
appended to altmatch and the ledger is left alone. -/
lemma scanCands_true (a : Rec) (iI : Bool) :
    ∀ (cands : List Rec) (v : Variant) (used : List Rec),
      (∀ b ∈ cands, (vcfVariantMatch a b).isSome) →
      scanCands a iI cands v true used =
        some ({ v with altmatch := v.altmatch ++ eligList a cands }, true, used) := by
  intro cands
  induction cands with
  | nil => intro v used _; simp [scanCands, eligList]
  | cons b bs ih =>
    intro v used hok
    have hok' : ∀ x ∈ bs, (vcfVariantMatch a x).isSome := fun x hx =>
      hok x (List.mem_cons_of_mem b hx)
    cases ht : vcfVariantMatch a b with
    | none => exact absurd (hok b (List.mem_cons_self b bs)) (by simp [ht])
    | some t =>
      cases t with
      | false =>
        have he : eligList a (b :: bs) = eligList a bs := by simp [eligList, ht]
        have hstep : scanCands a iI (b :: bs) v true used =
            scanCands a iI bs v true used := by
          simp [scanCands, ht]
        rw [hstep, ih v used hok', he]
      | true =>
        have he : eligList a (b :: bs) = b :: eligList a bs := by
          simp [eligList, ht]
        have hstep : scanCands a iI (b :: bs) v true used =
            scanCands a iI bs { v with altmatch := v.altmatch ++ [b] } true used := by
          simp [scanCands, ht]
        rw [hstep, ih _ used hok', he]
        simp

/-- The candidate scan before any match: the first eligible candidate
not blocked by the ledger becomes recB (and enters the ledger); all
other eligible candidates land in altmatch, in order. -/
lemma scanCands_false (a : Rec) (iI : Bool) :
    ∀ (cands : List Rec) (v : Variant) (used : List Rec),
      v.recB = none →
      (∀ b ∈ cands, (vcfVariantMatch a b).isSome) →
      scanCands a iI cands v false used =
        match (eligList a cands).find? (fun b => !(iI && decide (b ∈ used))) with
        | some c =>
          some ({ v with recB := some c, altmatch := v.altmatch ++ (eligList a cands).erase c }, true, used ++ [c])
        | none =>
          some ({ v with altmatch := v.altmatch ++ eligList a cands }, false, used) := by
  intro cands
  induction cands with
  | nil => intro v used hv _; simp [scanCands, eligList]
  | cons b bs ih =>
    intro v used hv hok
    have hok' : ∀ x ∈ bs, (vcfVariantMatch a x).isSome := fun x hx =>
      hok x (List.mem_cons_of_mem b hx)
    cases ht : vcfVariantMatch a b with
    | none => exact absurd (hok b (List.mem_cons_self b bs)) (by simp [ht])
    | some t =>
      cases t with
      | false =>
        have he : eligList a (b :: bs) = eligList a bs := by simp [eligList, ht]
        have hstep : scanCands a iI (b :: bs) v false used =
            scanCands a iI bs v false used := by
          simp [scanCands, ht]
        rw [hstep, ih v used hv hok', he]
      | true =>
        have he : eligList a (b :: bs) = b :: eligList a bs := by
          simp [eligList, ht]
        by_cases hblk : (iI && decide (b ∈ used)) = true
        · have hstep : scanCands a iI (b :: bs) v false used =
              scanCands a iI bs { v with altmatch := v.altmatch ++ [b] } false used := by
            simp [scanCands, ht, hv, hblk]
          rw [hstep, ih _ used (by simp [hv]) hok', he]
          rw [List.find?_cons_of_neg _ (by simp [hblk])]
          cases hf : (eligList a bs).find? (fun x => !(iI && decide (x ∈ used))) with
          | none => simp
          | some c =>
            have hc := List.find?_some hf
            have hbc : ¬ (b = c) := by
              intro hbceq
              rw [hbceq] at hblk
              simp [hblk] at hc
            simp only [List.erase_cons, if_neg (by simpa using (Ne.symm hbc) : ¬ _)]
            simp [List.erase_cons, beq_iff_eq, hbc]
        · have hset : v.set_left b = ({ v with recB := some b }, true) := by
            unfold Variant.set_left
            rw [hv]
          have hstep : scanCands a iI (b :: bs) v false used =
              scanCands a iI bs { v with recB := some b } true (used ++ [b]) := by
            simp [scanCands, ht, hv, hblk, hset]
          rw [hstep, scanCands_true a iI bs _ _ hok', he]
          rw [List.find?_cons_of_pos _ (by simp [hblk])]
          simp [List.erase_cons_head]

/-- Claim C4: in the candidate loop over one region-query result,
starting from a fresh Variant, recB is set at most once — to the first
eligible candidate, in query order, not blocked by the dedup ledger
(iI true for interval types) — and every other eligible candidate
(later eligible ones as well as ledger-blocked eligible ones) is
appended to altmatch, never overwriting recB. -/
theorem claim_C4 (a : Rec) (iI : Bool) (cands used : List Rec)
    (hok : ∀ b ∈ cands, (vcfVariantMatch a b).isSome) :
    scanCands a iI cands ⟨a, none, []⟩ false used =
      match (eligList a cands).find? (fun b => !(iI && decide (b ∈ used))) with
      | some c => some (⟨a, some c, (eligList a cands).erase c⟩, true, used ++ [c])
      | none => some (⟨a, none, eligList a cands⟩, false, used) := by
  rw [scanCands_false a iI cands ⟨a, none, []⟩ used rfl hok]
  cases (eligList a cands).find? (fun b => !(iI && decide (b ∈ used))) <;> simp

/-- Witness for claim C4: two eligible candidates, empty ledger; the
first becomes recB, the second goes to altmatch. -/
theorem claim_C4_witness :
    (∀ b ∈ [snvB1, snvB2], (vcfVariantMatch snvA b).isSome) ∧
      scanCands snvA false [snvB1, snvB2] ⟨snvA, none, []⟩ false [] =
        some (⟨snvA, some snvB1, [snvB2]⟩, true, [snvB1]) := by
  refine ⟨by decide, ?_⟩
  exact (claim_C4 snvA false [snvB1, snvB2] [] (by decide)).trans (by decide)

/-- Witness for claim C2 at a concrete matched pair with identical
trivial intervals. -/
theorem claim_C2_witness :
    get_conf_interval snvA 50 = some (100, 101) ∧
      ∃ s : ℚ, (Variant.mk snvA (some snvB1) []).interval_score = some s ∧
        0 < s ∧ s ≤ 1 ∧ s = 1 := by
  refine ⟨by decide, ?_⟩
  obtain ⟨s, h1, _h2, h3, h4, h5⟩ :=
    claim_C2 ⟨snvA, some snvB1, []⟩ snvB1 (100, 101) (100, 101) rfl (by decide)
      (by decide) (by decide) (by decide) (by decide)
  exact ⟨s, h1, h3, h4, h5.mpr rfl⟩

/-! Symmetry of the matching predicate and of the fetch window, used to
settle claim C1. -/

/-- The lower clamp of the fetch window is a max. -/
lemma clamp_eq_max (x : Int) : (if x < 1 then 1 else x) = max 1 x := by
  split <;> omega

lemma get_overlap_coords_comm (ivA ivB : Int × Int) :
    get_overlap_coords ivA ivB = get_overlap_coords ivB ivA := by
  unfold get_overlap_coords
  rw [min_comm ivA.2 ivB.2, max_comm ivA.1 ivB.1]

lemma vcfIntervalMatch_comm (a b : Rec) :
    vcfIntervalMatch a b = vcfIntervalMatch b a := by
  unfold vcfIntervalMatch
  by_cases h : a.info_svtype = b.info_svtype
  · rw [if_pos h, if_pos h.symm]
    cases ha : get_conf_interval a 50 <;> cases hb : get_conf_interval b 50 <;>
      simp only
    rename_i ivA ivB
    rw [get_overlap_coords_comm ivA ivB]
  · rw [if_neg h, if_neg (fun hh => h hh.symm)]

lemma vcfVariantMatch_comm (a b : Rec) :
    vcfVariantMatch a b = vcfVariantMatch b a := by
  unfold vcfVariantMatch
  have c1 : (a.is_snp ∧ b.is_snp ∧ a.pos = b.pos ∧ a.ref = b.ref ∧ a.alt = b.alt) ↔
      (b.is_snp ∧ a.is_snp ∧ b.pos = a.pos ∧ b.ref = a.ref ∧ b.alt = a.alt) := by
    constructor <;> rintro ⟨h1, h2, h3, h4, h5⟩ <;>
      exact ⟨h2, h1, h3.symm, h4.symm, h5.symm⟩
  have c2 : (a.is_indel ∧ b.is_indel ∧ a.ref = b.ref ∧ a.alt = b.alt) ↔
      (b.is_indel ∧ a.is_indel ∧ b.ref = a.ref ∧ b.alt = a.alt) := by
    constructor <;> rintro ⟨h1, h2, h3, h4⟩ <;> exact ⟨h2, h1, h3.symm, h4.symm⟩
  have c3 : (a.is_sv ∧ b.is_sv ∧ a.info_svtype = some ("BND") ∧ b.info_svtype = some ("BND")) ↔
      (b.is_sv ∧ a.is_sv ∧ b.info_svtype = some ("BND") ∧ a.info_svtype = some ("BND")) := by
    constructor <;> rintro ⟨h1, h2, h3, h4⟩ <;> exact ⟨h2, h1, h4, h3⟩
  by_cases h1 : a.is_snp ∧ b.is_snp ∧ a.pos = b.pos ∧ a.ref = b.ref ∧ a.alt = b.alt
  · rw [if_pos h1, if_pos (c1.mp h1)]
  · rw [if_neg h1, if_neg (fun hh => h1 (c1.mpr hh))]
    by_cases h2 : a.is_indel ∧ b.is_indel ∧ a.ref = b.ref ∧ a.alt = b.alt
    · rw [if_pos h2, if_pos (c2.mp h2)]
    · rw [if_neg h2, if_neg (fun hh => h2 (c2.mpr hh))]
      by_cases h3 : a.is_sv ∧ b.is_sv ∧ a.info_svtype = some ("BND") ∧
          b.info_svtype = some ("BND")
      · rw [if_pos h3, if_pos (c3.mp h3)]
        cases hA : a.alt.head? <;> cases hB : b.alt.head? <;> simp only
        rename_i sa sb
        by_cases hor : orientSV sa = orientSV sb
        · rw [if_pos hor, if_pos hor.symm]
          exact vcfIntervalMatch_comm a b
        · rw [if_neg hor, if_neg (fun hh => hor hh.symm)]
      · rw [if_neg h3, if_neg (fun hh => h3 (c3.mpr hh))]

/-- Two records declared eligible by vcfVariantMatch have the same
vtype, provided their class flags are exclusive. -/
lemma vtype_eq_of_match (a b : Rec) (hea : exclusiveFlags a) (heb : exclusiveFlags b)
    (hm : vcfVariantMatch a b = some true) :
    vtypeOf a = vtypeOf b ∧ (vtypeOf a).isSome := by
  unfold vcfVariantMatch at hm
  unfold vtypeOf
  split_ifs at hm with h1 h2 h3
  · obtain ⟨ha, hb, -⟩ := h1
    simp [ha, hb]
  · obtain ⟨ha, hb, -⟩ := h2
    have hna : a.is_snp = false := by
      cases hsnp : a.is_snp
      · rfl
      · exact absurd ha (by simp [(hea.1 hsnp).1])
    have hnb : b.is_snp = false := by
      cases hsnp : b.is_snp
      · rfl
      · exact absurd hb (by simp [(heb.1 hsnp).1])
    simp [ha, hb, hna, hnb]
  · obtain ⟨ha, hb, hta, htb⟩ := h3
    have hna : a.is_snp = false := by
      cases hsnp : a.is_snp
      · rfl
      · exact absurd ha (by simp [(hea.1 hsnp).2])
    have hnb : b.is_snp = false := by
      cases hsnp : b.is_snp
      · rfl
      · exact absurd hb (by simp [(heb.1 hsnp).2])
    have hia : a.is_indel = false := by
      cases hind : a.is_indel
      · rfl
      · exact absurd ha (by simp [hea.2 hind])
    have hib : b.is_indel = false := by
      cases hind : b.is_indel
      · rfl
      · exact absurd hb (by simp [heb.2 hind])
    simp [ha, hb, hna, hnb, hia, hib, hta, htb]
  · simp at hm

/-- The fetch-window test is symmetric for records with valid
coordinates (endpos at least 1, so the lower clamp is immaterial). -/
lemma windowHit_symm (w : Int) (a b : Rec)
    (hea : 1 ≤ a.endpos) (heb : 1 ≤ b.endpos) :
    windowHit w a b = windowHit w b a := by
  have key : windowHit w a b = true ↔ windowHit w b a = true := by
    unfold windowHit
    rw [clamp_eq_max, clamp_eq_max]
    simp only [Bool.and_eq_true, decide_eq_true_eq]
    constructor <;> rintro ⟨⟨h1, h2⟩, h3⟩ <;>
      exact ⟨⟨h1.symm, by omega⟩, by omega⟩
  cases hab : windowHit w a b <;> cases hba : windowHit w b a <;> simp_all

/-- Eligibility is symmetric between the two directional passes. -/
lemma Elig_mp (wIndel wSv : Int) (a b : Rec)
    (hea : exclusiveFlags a) (heb : exclusiveFlags b)
    (ha : 1 ≤ a.endpos) (hb : 1 ≤ b.endpos)
    (h : Elig wIndel wSv a b = true) : Elig wIndel wSv b a = true := by
  unfold Elig at h ⊢
  simp only [Bool.and_eq_true, decide_eq_true_eq] at h ⊢
  obtain ⟨hm, hw⟩ := h
  have hv := (vtype_eq_of_match a b hea heb hm).1
  refine ⟨(vcfVariantMatch_comm a b) ▸ hm, ?_⟩
  rw [← hv, ← windowHit_symm _ a b ha hb]
  exact hw

lemma Elig_symm (wIndel wSv : Int) (a b : Rec)
    (hea : exclusiveFlags a) (heb : exclusiveFlags b)
    (ha : 1 ≤ a.endpos) (hb : 1 ≤ b.endpos) :
    Elig wIndel wSv a b = true ↔ Elig wIndel wSv b a = true :=
  ⟨Elig_mp wIndel wSv a b hea heb ha hb, Elig_mp wIndel wSv b a heb hea hb ha⟩

/-- Eligibility includes the matching predicate. -/
lemma Elig_match {wIndel wSv : Int} {a b : Rec}
    (h : Elig wIndel wSv a b = true) : vcfVariantMatch a b = some true := by
  unfold Elig at h
  simp only [Bool.and_eq_true, decide_eq_true_eq] at h
  exact h.1

/-! Characterization of the directional pass (faster_snv=False), used to
settle claim C1. -/

lemma mem_fetch (B : List Rec) (chrom : String) (qs qe : Int) (b : Rec) :
    b ∈ fetch B chrom qs qe ↔
      b ∈ B ∧ b.chrom = chrom ∧ b.start ≤ qe ∧ qs ≤ b.endpos := by
  simp [fetch, List.mem_filter, and_assoc]

lemma mem_eligList (a b : Rec) (cands : List Rec) :
    b ∈ eligList a cands ↔ b ∈ cands ∧ vcfVariantMatch a b = some true := by
  simp [eligList, List.mem_filter]

/-- A list whose elements are pairwise equal and distinct has at most
one element. -/
lemma eq_nil_or_singleton_of_uniq {l : List Rec} (hnd : l.Nodup)
    (h : ∀ x ∈ l, ∀ y ∈ l, x = y) : l = [] ∨ ∃ x, l = [x] := by
  cases l with
  | nil => exact Or.inl rfl
  | cons x xs =>
    cases xs with
    | nil => exact Or.inr ⟨x, rfl⟩
    | cons y ys =>
      have hxy : x = y := h x (by simp) y (by simp)
      rw [List.nodup_cons] at hnd
      exact absurd (by simp [hxy]) hnd.1

lemma matched_add (c : Comparison) (t vt : VType) (v : Variant) :
    (c.add t v).matched vt =
      c.matched vt + (if vt = t then (if v.matched then 1 else 0) else 0) := by
  cases t <;> cases vt <;>
    simp [Comparison.add, Comparison.matched, Comparison.get, List.countP_append,
      List.countP_cons]

lemma matched_empty (vt : VType) : Comparison.empty.matched vt = 0 := by
  cases vt <;> simp [Comparison.empty, Comparison.matched, Comparison.get]

/-- One step of the pass with faster_snv=False, under a one-to-one
eligibility relation: the record is matched exactly when it has an
eligible partner, and everything entering the ledger is an eligible
partner of the record. -/
lemma step_char (wIndel wSv : Int) (B : List Rec) (hndB : B.Nodup)
    (st : PassState) (a : Rec)
    (hok : ∀ b ∈ B, (vcfVariantMatch a b).isSome)
    (huniq : ∀ b1 ∈ B, ∀ b2 ∈ B, Elig wIndel wSv a b1 = true →
      Elig wIndel wSv a b2 = true → b1 = b2)
    (hused : ∀ u ∈ st.used, Elig wIndel wSv a u = false) :
    ∃ st', stepRec wIndel wSv false B st a = some st' ∧
      (∀ vt, st'.cmp.matched vt = st.cmp.matched vt +
        (if (decide (vtypeOf a = some vt) && hasPartner wIndel wSv B a) = true
          then 1 else 0)) ∧
      (∀ u ∈ st'.used, u ∈ st.used ∨ (u ∈ B ∧ Elig wIndel wSv a u = true)) := by
  cases ht : vtypeOf a with
  | none =>
    refine ⟨st, by simp [stepRec, ht], fun vt => by simp [ht], fun u hu => Or.inl hu⟩
  | some t =>
    have hstep : stepRec wIndel wSv false B st a =
        match scanCands a (isIntervalType (some t))
            (fetch B a.chrom
              (if a.start - widthOf wIndel wSv (some t) < 1 then 1
                else a.start - widthOf wIndel wSv (some t))
              (a.endpos + widthOf wIndel wSv (some t)))
            ⟨a, none, []⟩ false st.used with
        | none => none
        | some (v1, _, used1) =>
          some { st with cmp := st.cmp.add t v1, used := used1 } := by
      simp [stepRec, ht]
    have hokc : ∀ b ∈ fetch B a.chrom
        (if a.start - widthOf wIndel wSv (some t) < 1 then 1
          else a.start - widthOf wIndel wSv (some t))
        (a.endpos + widthOf wIndel wSv (some t)), (vcfVariantMatch a b).isSome := by
      intro b hb
      exact hok b ((mem_fetch _ _ _ _ b).mp hb).1
    have hmem : ∀ b, b ∈ eligList a (fetch B a.chrom
        (if a.start - widthOf wIndel wSv (some t) < 1 then 1
          else a.start - widthOf wIndel wSv (some t))
        (a.endpos + widthOf wIndel wSv (some t))) ↔
        (b ∈ B ∧ Elig wIndel wSv a b = true) := by
      intro b
      rw [mem_eligList, mem_fetch]
      unfold Elig windowHit
      rw [ht]
      simp only [Bool.and_eq_true, decide_eq_true_eq]
      constructor
      · rintro ⟨⟨hB, hc, h1, h2⟩, hm⟩
        exact ⟨hB, hm, ⟨hc, h1⟩, h2⟩
      · rintro ⟨hB, hm, ⟨hc, h1⟩, h2⟩
        exact ⟨⟨hB, hc, h1, h2⟩, hm⟩
    have hndE : (eligList a (fetch B a.chrom
        (if a.start - widthOf wIndel wSv (some t) < 1 then 1
          else a.start - widthOf wIndel wSv (some t))
        (a.endpos + widthOf wIndel wSv (some t)))).Nodup :=
      ((List.filter_sublist _).trans (List.filter_sublist _)).nodup hndB
    have huniqE : ∀ x ∈ eligList a (fetch B a.chrom
        (if a.start - widthOf wIndel wSv (some t) < 1 then 1
          else a.start - widthOf wIndel wSv (some t))
        (a.endpos + widthOf wIndel wSv (some t))),
        ∀ y ∈ eligList a (fetch B a.chrom
        (if a.start - widthOf wIndel wSv (some t) < 1 then 1
          else a.start - widthOf wIndel wSv (some t))
        (a.endpos + widthOf wIndel wSv (some t))), x = y := by
      intro x hx y hy
      obtain ⟨hxB, hxe⟩ := (hmem x).mp hx
      obtain ⟨hyB, hye⟩ := (hmem y).mp hy
      exact huniq x hxB y hyB hxe hye
    rw [hstep, scanCands_false a _ _ _ _ rfl hokc]
    rcases eq_nil_or_singleton_of_uniq hndE huniqE with hnil | ⟨c, hsing⟩
    · rw [hnil]
      simp only [List.find?_nil]
      have hnp : hasPartner wIndel wSv B a = false := by
        cases hp : hasPartner wIndel wSv B a
        · rfl
        · exfalso
          obtain ⟨b, hbB, hbe⟩ := List.any_eq_true.mp hp
          have hbe' := (hmem b).mpr ⟨hbB, hbe⟩
          rw [hnil] at hbe'
          cases hbe'
      refine ⟨_, rfl, fun vt => ?_, fun u hu => Or.inl hu⟩
      rw [matched_add]
      simp [hnp, Variant.matched]
    · have hcBE : c ∈ B ∧ Elig wIndel wSv a c = true :=
        (hmem c).mp (by rw [hsing]; exact List.mem_singleton_self c)
      have hpred : (!(isIntervalType (some t) && decide (c ∈ st.used))) = true := by
        cases hi : isIntervalType (some t)
        · simp
        · simp only [Bool.true_and, Bool.not_eq_true']
          cases hcu : decide (c ∈ st.used)
          · rfl
          · exfalso
            have h1 := hused c (of_decide_eq_true hcu)
            rw [hcBE.2] at h1
            cases h1
      rw [hsing]
      have hfind : List.find?
          (fun b => !(isIntervalType (some t) && decide (b ∈ st.used))) [c] = some c := by
        simp only [List.find?]
        rw [hpred]
      rw [hfind]
      have hp : hasPartner wIndel wSv B a = true :=
        List.any_eq_true.mpr ⟨c, hcBE.1, hcBE.2⟩
      refine ⟨_, rfl, fun vt => ?_, fun u hu => ?_⟩
      · rw [matched_add]
        by_cases hvt : vt = t
        · subst hvt
          simp [ht, hp, Variant.matched]
        · simp [ht, hvt, Ne.symm hvt]
      · rcases List.mem_append.mp hu with h | h
        · exact Or.inl h
        · rw [List.mem_singleton] at h
          subst h
          exact Or.inr hcBE

/-- The fold of the pass characterized record by record. -/
lemma pass_char (wIndel wSv : Int) (B : List Rec) (hndB : B.Nodup) :
    ∀ (rest pre : List Rec) (st : PassState),
      (pre ++ rest).Nodup →
      (∀ a ∈ pre ++ rest, ∀ b ∈ B, (vcfVariantMatch a b).isSome) →
      (∀ a ∈ pre ++ rest, ∀ b1 ∈ B, ∀ b2 ∈ B, Elig wIndel wSv a b1 = true →
        Elig wIndel wSv a b2 = true → b1 = b2) →
      (∀ b ∈ B, ∀ a1 ∈ pre ++ rest, ∀ a2 ∈ pre ++ rest, Elig wIndel wSv a1 b = true →
        Elig wIndel wSv a2 b = true → a1 = a2) →
      (∀ vt, st.cmp.matched vt = pre.countP
        (fun x => decide (vtypeOf x = some vt) && hasPartner wIndel wSv B x)) →
      (∀ u ∈ st.used, u ∈ B ∧ ∃ x ∈ pre, Elig wIndel wSv x u = true) →
      ∃ st', List.foldlM (stepRec wIndel wSv false B) st rest = some st' ∧
        ∀ vt, st'.cmp.matched vt = (pre ++ rest).countP
          (fun x => decide (vtypeOf x = some vt) && hasPartner wIndel wSv B x) := by
  intro rest
  induction rest with
  | nil =>
    intro pre st _ _ _ _ hcmp _
    exact ⟨st, rfl, by simpa using hcmp⟩
  | cons a rest' ih =>
    intro pre st hnd hok huniqB huniqA hcmp husedinv
    have haA : a ∈ pre ++ a :: rest' := by simp
    have hstepused : ∀ u ∈ st.used, Elig wIndel wSv a u = false := by
      intro u hu
      obtain ⟨huB, x, hxpre, hxe⟩ := husedinv u hu
      cases he : Elig wIndel wSv a u
      · rfl
      · exfalso
        have hax : x = a :=
          huniqA u huB x (List.mem_append.mpr (Or.inl hxpre)) a haA hxe he
        rw [hax] at hxpre
        rw [List.nodup_append] at hnd
        exact (hnd.2.2 hxpre) (by simp)
    obtain ⟨st1, hs1, hs2, hs3⟩ := step_char wIndel wSv B hndB st a
      (hok a haA) (huniqB a haA) hstepused
    have hassoc : pre ++ a :: rest' = (pre ++ [a]) ++ rest' := by simp
    obtain ⟨st', hf1, hf2⟩ := ih (pre ++ [a]) st1
      (by rw [← hassoc]; exact hnd)
      (by rw [← hassoc]; exact hok)
      (by rw [← hassoc]; exact huniqB)
      (by rw [← hassoc]; exact huniqA)
      (by
        intro vt
        rw [hs2 vt, hcmp vt]
        simp [List.countP_append, List.countP_cons])
      (by
        intro u hu
        rcases hs3 u hu with h | h
        · obtain ⟨huB, x, hxpre, hxe⟩ := husedinv u h
          exact ⟨huB, x, List.mem_append.mpr (Or.inl hxpre), hxe⟩
        · exact ⟨h.1, a, by simp, h.2⟩)
    refine ⟨st', ?_, by rw [hassoc]; exact hf2⟩
    rw [List.foldlM_cons, hs1]
    exact hf1

/-- The whole directional pass with faster_snv=False, under one-to-one
eligibility: it completes, and its matched count per vtype is the
number of driving records of that vtype having an eligible partner. -/
lemma compare_char (A B : List Rec) (wIndel wSv : Int)
    (hndA : A.Nodup) (hndB : B.Nodup)
    (hok : ∀ a ∈ A, ∀ b ∈ B, (vcfVariantMatch a b).isSome)
    (huniqB : ∀ a ∈ A, ∀ b1 ∈ B, ∀ b2 ∈ B, Elig wIndel wSv a b1 = true →
      Elig wIndel wSv a b2 = true → b1 = b2)
    (huniqA : ∀ b ∈ B, ∀ a1 ∈ A, ∀ a2 ∈ A, Elig wIndel wSv a1 b = true →
      Elig wIndel wSv a2 b = true → a1 = a2) :
    ∃ c, compareVCFs A B wIndel wSv false = some c ∧
      ∀ vt, c.matched vt = A.countP
        (fun x => decide (vtypeOf x = some vt) && hasPartner wIndel wSv B x) := by
  obtain ⟨st', h1, h2⟩ := pass_char wIndel wSv B hndB A [] ⟨Comparison.empty, [], initCursor B⟩
    (by simpa using hndA) (by simpa using hok) (by simpa using huniqB)
    (by simpa using huniqA) (fun vt => by simp [matched_empty]) (by simp)
  refine ⟨st'.cmp, ?_, by simpa using h2⟩
  unfold compareVCFs
  rw [h1]

/-- Under one-to-one, symmetric eligibility, the number of records of a
vtype in A having a partner in B equals the number of records of that
vtype in B having a partner in A. -/
lemma countP_partner_symm (wIndel wSv : Int) (A B : List Rec) (vt : VType)
    (hndA : A.Nodup) (hndB : B.Nodup)
    (hexA : ∀ r ∈ A, exclusiveFlags r) (hexB : ∀ r ∈ B, exclusiveFlags r)
    (hendA : ∀ r ∈ A, 1 ≤ r.endpos) (hendB : ∀ r ∈ B, 1 ≤ r.endpos)
    (huniqA : ∀ b ∈ B, ∀ a1 ∈ A, ∀ a2 ∈ A, Elig wIndel wSv a1 b = true →
      Elig wIndel wSv a2 b = true → a1 = a2)
    (huniqB : ∀ a ∈ A, ∀ b1 ∈ B, ∀ b2 ∈ B, Elig wIndel wSv a b1 = true →
      Elig wIndel wSv a b2 = true → b1 = b2) :
    A.countP (fun x => decide (vtypeOf x = some vt) && hasPartner wIndel wSv B x)
      = B.countP (fun x => decide (vtypeOf x = some vt) && hasPartner wIndel wSv A x) := by
  classical
  rw [List.countP_eq_length_filter, List.countP_eq_length_filter]
  rw [← List.toFinset_card_of_nodup (List.Nodup.filter _ hndA),
    ← List.toFinset_card_of_nodup (List.Nodup.filter _ hndB)]
  have memA : ∀ a, a ∈ (A.filter
      (fun x => decide (vtypeOf x = some vt) && hasPartner wIndel wSv B x)).toFinset ↔
      (a ∈ A ∧ vtypeOf a = some vt ∧ ∃ b ∈ B, Elig wIndel wSv a b = true) := by
    intro a
    rw [List.mem_toFinset, List.mem_filter]
    simp [hasPartner, List.any_eq_true, and_assoc]
  have memB : ∀ b, b ∈ (B.filter
      (fun x => decide (vtypeOf x = some vt) && hasPartner wIndel wSv A x)).toFinset ↔
      (b ∈ B ∧ vtypeOf b = some vt ∧ ∃ a ∈ A, Elig wIndel wSv b a = true) := by
    intro b
    rw [List.mem_toFinset, List.mem_filter]
    simp [hasPartner, List.any_eq_true, and_assoc]
  have exA : ∀ a, a ∈ (A.filter
      (fun x => decide (vtypeOf x = some vt) && hasPartner wIndel wSv B x)).toFinset →
      ∃ b, b ∈ B ∧ Elig wIndel wSv a b = true := by
    intro a ha
    obtain ⟨-, -, b, hbB, hbe⟩ := (memA a).mp ha
    exact ⟨b, hbB, hbe⟩
  refine Finset.card_bij (fun a ha => (exA a ha).choose) ?_ ?_ ?_
  · intro a ha
    obtain ⟨hbB, hbe⟩ := (exA a ha).choose_spec
    obtain ⟨haA, hvt, -⟩ := (memA a).mp ha
    have hm : vcfVariantMatch a (exA a ha).choose = some true := Elig_match hbe
    have hveq := (vtype_eq_of_match a _ (hexA a haA) (hexB _ hbB) hm).1
    refine (memB _).mpr ⟨hbB, by rw [← hveq]; exact hvt, a, haA, ?_⟩
    exact Elig_mp wIndel wSv a _ (hexA a haA) (hexB _ hbB) (hendA a haA)
      (hendB _ hbB) hbe
  · intro a1 ha1 a2 ha2 heq
    obtain ⟨hb1B, hb1e⟩ := (exA a1 ha1).choose_spec
    obtain ⟨hb2B, hb2e⟩ := (exA a2 ha2).choose_spec
    obtain ⟨ha1A, -, -⟩ := (memA a1).mp ha1
    obtain ⟨ha2A, -, -⟩ := (memA a2).mp ha2
    have heq' : (exA a1 ha1).choose = (exA a2 ha2).choose := heq
    rw [heq'] at hb1e
    exact huniqA _ hb2B a1 ha1A a2 ha2A hb1e hb2e
  · intro b hb
    obtain ⟨hbB, hvtb, a, haA, hba⟩ := (memB b).mp hb
    have hab : Elig wIndel wSv a b = true :=
      Elig_mp wIndel wSv b a (hexB b hbB) (hexA a haA) (hendB b hbB) (hendA a haA) hba
    have hma : vcfVariantMatch a b = some true := Elig_match hab
    have hveq := (vtype_eq_of_match a b (hexA a haA) (hexB b hbB) hma).1
    have haIn : a ∈ (A.filter
        (fun x => decide (vtypeOf x = some vt) && hasPartner wIndel wSv B x)).toFinset :=
      (memA a).mpr ⟨haA, by rw [hveq]; exact hvtb, b, hbB, hab⟩
    refine ⟨a, haIn, ?_⟩
    obtain ⟨hb'B, hb'e⟩ := (exA a haIn).choose_spec
    exact huniqB a haA _ hb'B b hbB hb'e hab

/-- Claim C1 counterexample: both sources are well formed and
coordinate sorted, but B holds two distinct records (differing in ID)
at one locus.  A→B matches one record; B→A matches two, because the SNV
path has no dedup ledger.  The matched counts of the two directional
passes differ. -/
theorem claim_C1_counterexample :
    (compareVCFs [snvA] [snvB1, snvB2] 50 1000 false).map
        (fun c => c.matched .SNV) = some 1 ∧
      (compareVCFs [snvB1, snvB2] [snvA] 50 1000 false).map
        (fun c => c.matched .SNV) = some 2 ∧
      (compareVCFs [snvA] [snvB1, snvB2] 50 1000 false).map
          (fun c => c.matched .SNV) ≠
        (compareVCFs [snvB1, snvB2] [snvA] 50 1000 false).map
          (fun c => c.matched .SNV) :=
  ⟨by decide, by decide, by decide⟩

/-- Claim C1 as amended: the matched counts of the two directional
passes agree for every variant type whenever the records of each source
are distinct, well formed (exclusive class flags, endpoint coordinates
at least 1), the matching predicate never raises, and eligibility
(matching plus fetch window) is one-to-one between the two sources; in
general the counts can differ (see the counterexample) and the program
only reports the asymmetry as a warning. -/
theorem claim_C1 (A B : List Rec) (wIndel wSv : Int) (vt : VType)
    (hndA : A.Nodup) (hndB : B.Nodup)
    (hexA : ∀ r ∈ A, exclusiveFlags r) (hexB : ∀ r ∈ B, exclusiveFlags r)
    (hendA : ∀ r ∈ A, 1 ≤ r.endpos) (hendB : ∀ r ∈ B, 1 ≤ r.endpos)
    (hok : ∀ a ∈ A, ∀ b ∈ B, (vcfVariantMatch a b).isSome)
    (huniqB : ∀ a ∈ A, ∀ b1 ∈ B, ∀ b2 ∈ B, Elig wIndel wSv a b1 = true →
      Elig wIndel wSv a b2 = true → b1 = b2)
    (huniqA : ∀ b ∈ B, ∀ a1 ∈ A, ∀ a2 ∈ A, Elig wIndel wSv a1 b = true →
      Elig wIndel wSv a2 b = true → a1 = a2) :
    (compareVCFs A B wIndel wSv false).map (fun c => c.matched vt)
      = (compareVCFs B A wIndel wSv false).map (fun c => c.matched vt) := by
  obtain ⟨cAB, h1, h2⟩ := compare_char A B wIndel wSv hndA hndB hok huniqB huniqA
  have hokBA : ∀ b ∈ B, ∀ a ∈ A, (vcfVariantMatch b a).isSome := by
    intro b hb a ha
    rw [vcfVariantMatch_comm b a]
    exact hok a ha b hb
  have huniqB' : ∀ b ∈ B, ∀ a1 ∈ A, ∀ a2 ∈ A, Elig wIndel wSv b a1 = true →
      Elig wIndel wSv b a2 = true → a1 = a2 := by
    intro b hb a1 ha1 a2 ha2 he1 he2
    exact huniqA b hb a1 ha1 a2 ha2
      (Elig_mp wIndel wSv b a1 (hexB b hb) (hexA a1 ha1) (hendB b hb) (hendA a1 ha1) he1)
      (Elig_mp wIndel wSv b a2 (hexB b hb) (hexA a2 ha2) (hendB b hb) (hendA a2 ha2) he2)
  have huniqA' : ∀ a ∈ A, ∀ b1 ∈ B, ∀ b2 ∈ B, Elig wIndel wSv b1 a = true →
      Elig wIndel wSv b2 a = true → b1 = b2 := by
    intro a ha b1 hb1 b2 hb2 he1 he2
    exact huniqB a ha b1 hb1 b2 hb2
      (Elig_mp wIndel wSv b1 a (hexB b1 hb1) (hexA a ha) (hendB b1 hb1) (hendA a ha) he1)
      (Elig_mp wIndel wSv b2 a (hexB b2 hb2) (hexA a ha) (hendB b2 hb2) (hendA a ha) he2)
  obtain ⟨cBA, h3, h4⟩ := compare_char B A wIndel wSv hndB hndA hokBA huniqB' huniqA'
  rw [h1, h3]
  simp only [Option.map_some']
  refine congrArg some ?_
  rw [h2 vt, h4 vt]
  exact countP_partner_symm wIndel wSv A B vt hndA hndB hexA hexB hendA hendB
    huniqA huniqB

/-- Witness for claim C1 at a concrete one-to-one pair of sources. -/
theorem claim_C1_witness :
    [snvA].Nodup ∧
      (compareVCFs [snvA] [snvB1] 50 1000 false).map (fun c => c.matched .SNV)
        = (compareVCFs [snvB1] [snvA] 50 1000 false).map (fun c => c.matched .SNV) :=
  ⟨by decide,
    claim_C1 [snvA] [snvB1] 50 1000 .SNV (by decide) (by decide) (by decide)
      (by decide) (by decide) (by decide) (by decide) (by decide) (by decide)⟩

/-! Equivalence of the faster-SNV cursor path and the region-query path
for SNV records, used to settle claim C3. -/

/-- On a pair of plain SNV records the matching predicate never raises
and tests exactly POS/REF/ALT equality. -/
lemma snv_match_eq (a b : Rec)
    (ha1 : a.is_snp = true) (ha2 : a.is_indel = false) (ha3 : a.is_sv = false)
    (hb1 : b.is_snp = true) (hb2 : b.is_indel = false) (hb3 : b.is_sv = false) :
    vcfVariantMatch a b =
      some (decide (a.pos = b.pos ∧ a.ref = b.ref ∧ a.alt = b.alt)) := by
  unfold vcfVariantMatch
  by_cases h : a.pos = b.pos ∧ a.ref = b.ref ∧ a.alt = b.alt <;>
    simp [ha1, ha2, ha3, hb1, hb2, hb3, h]

/-- find? is the head of the filtered list. -/
lemma find?_eq_head?_filter (p : Rec → Bool) (l : List Rec) :
    l.find? p = (l.filter p).head? := by
  induction l with
  | nil => rfl
  | cons x xs ih =>
    cases h : p x
    · rw [List.find?_cons_of_neg _ (by simp [h]), List.filter_cons_of_neg (by simp [h])]
      exact ih
    · rw [List.find?_cons_of_pos _ h, List.filter_cons_of_pos h]
      rfl

/-- find? skips a prefix on which the predicate is false. -/
lemma find?_append_of_none (p : Rec → Bool) (l1 l2 : List Rec)
    (h : ∀ x ∈ l1, p x = false) :
    (l1 ++ l2).find? p = l2.find? p := by
  induction l1 with
  | nil => rfl
  | cons x xs ih =>
    rw [List.cons_append, List.find?_cons_of_neg _ (by simp [h x (by simp)])]
    exact ih (fun x hx => h x (by simp [hx]))

/-- A strictly position-sorted list whose members all sit at one
position has at most one member. -/
lemma singleton_of_pairwise_eq {l : List Rec} (p : Int)
    (hp : l.Pairwise (fun x y => x.pos < y.pos)) (h : ∀ x ∈ l, x.pos = p) :
    l = [] ∨ ∃ x, l = [x] := by
  cases l with
  | nil => exact Or.inl rfl
  | cons x xs =>
    cases xs with
    | nil => exact Or.inr ⟨x, rfl⟩
    | cons y ys =>
      rw [List.pairwise_cons] at hp
      have h1 := hp.1 y (by simp)
      have h2 := h x (by simp)
      have h3 := h y (by simp)
      omega

/-- The fetch window for an SNV driving record keeps every candidate
that the matching predicate accepts, so filtering the window result by
the predicate equals filtering the whole source. -/
lemma eligList_fetch_snv (a : Rec) (chr : String) (B : List Rec)
    (ha : snvRecOn chr a) (hB : ∀ r ∈ B, snvRecOn chr r) (W1 W2 : Int)
    (hW1 : W1 ≤ a.pos) (hW2 : a.pos - 1 ≤ W2) :
    eligList a (fetch B a.chrom W1 W2) =
      B.filter (fun b => decide (vcfVariantMatch a b = some true)) := by
  unfold eligList fetch
  rw [List.filter_filter]
  apply List.filter_congr
  intro b hb
  cases hm : decide (vcfVariantMatch a b = some true)
  · simp
  · have hb' := hB b hb
    have hmm := of_decide_eq_true hm
    rw [snv_match_eq a b ha.1 ha.2.1 ha.2.2.1 hb'.1 hb'.2.1 hb'.2.2.1] at hmm
    have hpos := (of_decide_eq_true (Option.some.inj hmm)).1
    obtain ⟨-, -, -, hbch, hbst, hbe, hbp⟩ := hb'
    obtain ⟨-, -, -, hach, -, -, -⟩ := ha
    simp only [Bool.true_and, decide_eq_true_eq]
    refine ⟨by rw [hbch, hach], by omega, by omega⟩

/-- One slow-path (region query) step on an SNV record appends the
Variant holding exactly the snvPartner. -/
lemma step_slow (wIndel wSv : Int) (chr : String) (B : List Rec)
    (hB : ∀ r ∈ B, snvRecOn chr r) (hBs : B.Pairwise (fun x y => x.pos < y.pos))
    (st : PassState) (a : Rec) (ha : snvRecOn chr a) :
    ∃ st', stepRec wIndel wSv false B st a = some st' ∧
      st'.cmp = st.cmp.add .SNV ⟨a, snvPartner a B, []⟩ := by
  have hvt : vtypeOf a = some .SNV := by
    unfold vtypeOf
    simp [ha.1]
  have hstep : stepRec wIndel wSv false B st a =
      match scanCands a false
          (fetch B a.chrom (if a.start - 0 < 1 then 1 else a.start - 0) (a.endpos + 0))
          ⟨a, none, []⟩ false st.used with
      | none => none
      | some (v1, _, used1) =>
        some { st with cmp := st.cmp.add .SNV v1, used := used1 } := by
    simp [stepRec, hvt, widthOf, isIntervalType]
  have hok : ∀ b ∈ fetch B a.chrom
      (if a.start - 0 < 1 then 1 else a.start - 0) (a.endpos + 0),
      (vcfVariantMatch a b).isSome := by
    intro b hb
    have hbB := ((mem_fetch _ _ _ _ b).mp hb).1
    have hb' := hB b hbB
    rw [snv_match_eq a b ha.1 ha.2.1 ha.2.2.1 hb'.1 hb'.2.1 hb'.2.2.1]
    rfl
  have hEL : eligList a (fetch B a.chrom
      (if a.start - 0 < 1 then 1 else a.start - 0) (a.endpos + 0)) =
      B.filter (fun b => decide (vcfVariantMatch a b = some true)) := by
    apply eligList_fetch_snv a chr B ha hB
    · rw [clamp_eq_max]
      have := ha.2.2.2.2.1
      have := ha.2.2.2.2.2.2
      omega
    · have := ha.2.2.2.2.1
      have := ha.2.2.2.2.2.1
      omega
  have hELpos : ∀ x ∈ B.filter (fun b => decide (vcfVariantMatch a b = some true)),
      x.pos = a.pos := by
    intro x hx
    rw [List.mem_filter] at hx
    have hx' := hB x hx.1
    have hmm := of_decide_eq_true hx.2
    rw [snv_match_eq a x ha.1 ha.2.1 ha.2.2.1 hx'.1 hx'.2.1 hx'.2.2.1] at hmm
    exact ((of_decide_eq_true (Option.some.inj hmm)).1).symm
  have hpart : snvPartner a B =
      (B.filter (fun b => decide (vcfVariantMatch a b = some true))).head? :=
    find?_eq_head?_filter _ B
  rw [hstep, scanCands_false a false _ _ _ rfl hok, hEL]
  rcases singleton_of_pairwise_eq a.pos (List.Pairwise.filter _ hBs) hELpos with h0 | ⟨x, h1⟩
  · rw [h0]
    rw [h0] at hpart
    simp only [List.find?_nil]
    exact ⟨_, rfl, by simp [hpart]⟩
  · rw [h1]
    rw [h1] at hpart
    have hfind : List.find? (fun b => !(false && decide (b ∈ st.used))) [x] = some x := by
      simp [List.find?]
    rw [hfind]
    exact ⟨_, rfl, by simp [hpart, List.erase_cons_head]⟩

/-- On plain SNV records a failed decide on the match means the
predicate returned False. -/
lemma snv_match_false (a c : Rec) (chr : String)
    (ha : snvRecOn chr a) (hc : snvRecOn chr c)
    (h : decide (vcfVariantMatch a c = some true) = false) :
    vcfVariantMatch a c = some false := by
  rw [snv_match_eq a c ha.1 ha.2.1 ha.2.2.1 hc.1 hc.2.1 hc.2.2.1] at h ⊢
  cases hd : decide (a.pos = c.pos ∧ a.ref = c.ref ∧ a.alt = c.alt)
  · rfl
  · rw [hd] at h
    simp at h

/-- A plain SNV record at a different position never matches. -/
lemma snv_match_false_of_pos (a c : Rec) (chr : String)
    (ha : snvRecOn chr a) (hc : snvRecOn chr c) (h : a.pos ≠ c.pos) :
    decide (vcfVariantMatch a c = some true) = false := by
  rw [snv_match_eq a c ha.1 ha.2.1 ha.2.2.1 hc.1 hc.2.1 hc.2.2.1]
  rw [decide_eq_false
    (fun hP => h hP.1 : ¬ (a.pos = c.pos ∧ a.ref = c.ref ∧ a.alt = c.alt))]
  rfl

/-- The advance loop does not run when the cursor does not trail a. -/
lemma advanceCursor_stop (a : Rec) (v : Variant) (m : Bool) (c : Rec) (rest : List Rec)
    (hcond : ¬ (c.chrom ≠ a.chrom ∨ c.pos < a.pos)) :
    advanceCursor a v m c rest = some (v, m, (c, rest)) := by
  unfold advanceCursor
  rw [if_neg hcond]

/-- The advance loop keeps the last record on exhaustion. -/
lemma advanceCursor_nil (a : Rec) (v : Variant) (m : Bool) (c : Rec)
    (hcond : c.chrom ≠ a.chrom ∨ c.pos < a.pos) :
    advanceCursor a v m c [] = some (v, m, (c, [])) := by
  unfold advanceCursor
  rw [if_pos hcond]

/-- One read of the advance loop that does not match. -/
lemma advanceCursor_cons_false (a : Rec) (v : Variant) (m : Bool) (c c' : Rec)
    (rest' : List Rec) (hcond : c.chrom ≠ a.chrom ∨ c.pos < a.pos)
    (hm' : vcfVariantMatch a c' = some false) :
    advanceCursor a v m c (c' :: rest') = advanceCursor a v m c' rest' := by
  conv_lhs => unfold advanceCursor
  rw [if_pos hcond]
  simp [hm']

/-- One read of the advance loop that matches: recB is set and the loop
goes on from the record just read. -/
lemma advanceCursor_cons_true (a : Rec) (v : Variant) (m : Bool) (c c' : Rec)
    (rest' : List Rec) (hcond : c.chrom ≠ a.chrom ∨ c.pos < a.pos)
    (hm' : vcfVariantMatch a c' = some true) :
    advanceCursor a v m c (c' :: rest') =
      advanceCursor a (v.set_left c').1 true c' rest' := by
  conv_lhs => unfold advanceCursor
  rw [if_pos hcond]
  simp [hm']

/-- The co-advancing cursor loop over a single-chromosome, all-SNV,
strictly sorted stream: it reads forward while the cursor trails a,
testing each record read, and so matches exactly the record at a's
position when one has not yet been passed. -/
lemma advance_char (a : Rec) (chr : String) (B : List Rec)
    (ha : snvRecOn chr a) (hB : ∀ r ∈ B, snvRecOn chr r)
    (hBs : B.Pairwise (fun x y => x.pos < y.pos)) :
    ∀ (rest pre : List Rec) (c : Rec) (v : Variant),
      B = pre ++ c :: rest →
      (∀ x ∈ pre, x.pos < a.pos) →
      vcfVariantMatch a c = some false →
      ∃ pre2 c2 rest2,
        advanceCursor a v false c rest =
          some (match (c :: rest).find?
              (fun b => decide (vcfVariantMatch a b = some true)) with
            | some b => ((v.set_left b).1, true, (c2, rest2))
            | none => (v, false, (c2, rest2))) ∧
        B = pre2 ++ c2 :: rest2 ∧ (∀ x ∈ pre2, x.pos < a.pos) := by
  intro rest
  induction rest with
  | nil =>
    intro pre c v hsplit hpre hmc
    refine ⟨pre, c, [], ?_, hsplit, hpre⟩
    have hfind : (c :: ([] : List Rec)).find?
        (fun b => decide (vcfVariantMatch a b = some true)) = none := by
      rw [List.find?_cons_of_neg _ (by simp [hmc])]
      rfl
    rw [hfind]
    by_cases hcond : c.chrom ≠ a.chrom ∨ c.pos < a.pos
    · rw [advanceCursor_nil a v false c hcond]
    · rw [advanceCursor_stop a v false c [] hcond]
  | cons c' rest' ih =>
    intro pre c v hsplit hpre hmc
    have hcB : c ∈ B := by rw [hsplit]; simp
    have hc := hB c hcB
    have hc'B : c' ∈ B := by rw [hsplit]; simp
    have hc' := hB c' hc'B
    have hchrom : c.chrom = a.chrom := by rw [hc.2.2.2.1, ha.2.2.2.1]
    by_cases hlt : c.pos < a.pos
    · have hcond : (c.chrom ≠ a.chrom ∨ c.pos < a.pos) := Or.inr hlt
      cases hm' : vcfVariantMatch a c' with
      | none =>
        exfalso
        rw [snv_match_eq a c' ha.1 ha.2.1 ha.2.2.1 hc'.1 hc'.2.1 hc'.2.2.1] at hm'
        cases hm'
      | some tst =>
        cases tst
        · obtain ⟨pre2, c2, rest2, hadv, hsp2, hbd2⟩ := ih (pre ++ [c]) c' v
            (by rw [hsplit]; simp)
            (by
              intro x hx
              rcases List.mem_append.mp hx with h | h
              · exact hpre x h
              · rw [List.mem_singleton] at h
                subst h
                exact hlt)
            hm'
          refine ⟨pre2, c2, rest2, ?_, hsp2, hbd2⟩
          rw [List.find?_cons_of_neg _ (by simp [hmc])]
          rw [advanceCursor_cons_false a v false c c' rest' hcond hm', hadv]
        · -- c' matches: cursor stops at c'
          have hposc' : a.pos = c'.pos := by
            have h1 := hm'
            rw [snv_match_eq a c' ha.1 ha.2.1 ha.2.2.1 hc'.1 hc'.2.1 hc'.2.2.1] at h1
            exact (of_decide_eq_true (Option.some.inj h1)).1
          refine ⟨pre ++ [c], c', rest', ?_, by rw [hsplit]; simp, ?_⟩
          · have hstop : advanceCursor a (v.set_left c').1 true c' rest' =
                some ((v.set_left c').1, true, (c', rest')) := by
              apply advanceCursor_stop
              push_neg
              constructor
              · rw [hc'.2.2.2.1, ha.2.2.2.1]
              · omega
            rw [advanceCursor_cons_true a v false c c' rest' hcond hm', hstop]
            rw [List.find?_cons_of_neg _ (by simp [hmc]),
              List.find?_cons_of_pos _ (by rw [hm']; rfl)]
          · intro x hx
            rcases List.mem_append.mp hx with h | h
            · exact hpre x h
            · rw [List.mem_singleton] at h
              subst h
              exact hlt
    · -- the cursor is already at or past a: the loop does not run
      have hcond : ¬ (c.chrom ≠ a.chrom ∨ c.pos < a.pos) := by
        push_neg
        exact ⟨hchrom, by omega⟩
      have hsuf : (c :: c' :: rest').Pairwise (fun x y => x.pos < y.pos) := by
        have h1 := hBs
        rw [hsplit] at h1
        exact (List.pairwise_append.mp h1).2.1
      have hfind : (c :: c' :: rest').find?
          (fun b => decide (vcfVariantMatch a b = some true)) = none := by
        rw [List.find?_eq_none]
        intro x hx
        rcases List.mem_cons.mp hx with h | h
        · subst h
          simp [hmc]
        · have hcx := (List.pairwise_cons.mp hsuf).1 x h
          have hx' := hB x (by rw [hsplit]; simp [h])
          have : a.pos ≠ x.pos := by omega
          simp [snv_match_false_of_pos a x chr ha hx' this]
      refine ⟨pre, c, c' :: rest', ?_, hsplit, hpre⟩
      rw [hfind]
      exact advanceCursor_stop a v false c (c' :: rest') hcond

/-- One fast-path (cursor) step on an SNV record appends the Variant
holding exactly the snvPartner and leaves the cursor with only
already-passed records behind it. -/
lemma step_fast (wIndel wSv : Int) (chr : String) (B : List Rec)
    (hB : ∀ r ∈ B, snvRecOn chr r) (hBs : B.Pairwise (fun x y => x.pos < y.pos))
    (st : PassState) (a : Rec) (ha : snvRecOn chr a)
    (pre : List Rec) (c : Rec) (rest : List Rec)
    (hcur : st.cursor = some (c, rest)) (hsplit : B = pre ++ c :: rest)
    (hpre : ∀ x ∈ pre, x.pos < a.pos) :
    ∃ st', stepRec wIndel wSv true B st a = some st' ∧
      st'.cmp = st.cmp.add .SNV ⟨a, snvPartner a B, []⟩ ∧
      ∃ pre2 c2 rest2, st'.cursor = some (c2, rest2) ∧ B = pre2 ++ c2 :: rest2 ∧
        ∀ x ∈ pre2, x.pos < a.pos := by
  have hvt : vtypeOf a = some .SNV := by
    unfold vtypeOf
    simp [ha.1]
  have hcB : c ∈ B := by rw [hsplit]; simp
  have hc := hB c hcB
  have hbranch : stepRec wIndel wSv true B st a =
      match vcfVariantMatch a c with
      | none => none
      | some tst =>
        if tst then
          some { st with cmp := st.cmp.add .SNV ((⟨a, none, []⟩ : Variant).set_left c).1 }
        else
          match advanceCursor a ⟨a, none, []⟩ false c rest with
          | none => none
          | some (v1, _, cur2) =>
            some { st with cmp := st.cmp.add .SNV v1, cursor := some cur2 } := by
    simp [stepRec, hvt, isIntervalType, hcur]
  have hpreno : ∀ x ∈ pre,
      (fun b => decide (vcfVariantMatch a b = some true)) x = false := by
    intro x hx
    have hx' := hB x (by rw [hsplit]; simp [hx])
    exact snv_match_false_of_pos a x chr ha hx' (by have := hpre x hx; omega)
  have hpartner : snvPartner a B =
      (c :: rest).find? (fun b => decide (vcfVariantMatch a b = some true)) := by
    unfold snvPartner
    rw [hsplit]
    exact find?_append_of_none _ pre _ hpreno
  cases hm : vcfVariantMatch a c with
  | none =>
    exfalso
    rw [snv_match_eq a c ha.1 ha.2.1 ha.2.2.1 hc.1 hc.2.1 hc.2.2.1] at hm
    cases hm
  | some tst =>
    cases tst
    · obtain ⟨pre2, c2, rest2, hadv, hsp2, hbd2⟩ :=
        advance_char a chr B ha hB hBs rest pre c ⟨a, none, []⟩ hsplit hpre hm
      cases hf : (c :: rest).find?
          (fun b => decide (vcfVariantMatch a b = some true)) with
      | some b =>
        refine ⟨(⟨st.cmp.add .SNV (((⟨a, none, []⟩ : Variant)).set_left b).1, st.used, some (c2, rest2)⟩ : PassState), ?_, ?_, pre2, c2, rest2, rfl, hsp2, hbd2⟩
        · rw [hbranch, hm]
          rw [hf] at hadv
          simp [hadv]
        · rw [hpartner, hf]
          simp [Variant.set_left]
      | none =>
        refine ⟨(⟨st.cmp.add .SNV ⟨a, none, []⟩, st.used, some (c2, rest2)⟩ : PassState), ?_, ?_, pre2, c2, rest2, rfl, hsp2, hbd2⟩
        · rw [hbranch, hm]
          rw [hf] at hadv
          simp [hadv]
        · rw [hpartner, hf]
    · have hfind : (c :: rest).find?
          (fun b => decide (vcfVariantMatch a b = some true)) = some c :=
        List.find?_cons_of_pos _ (by rw [hm]; rfl)
      refine ⟨{ st with
          cmp := st.cmp.add .SNV (((⟨a, none, []⟩ : Variant)).set_left c).1 },
          ?_, ?_, pre, c, rest, ?_, hsplit, hpre⟩
      · rw [hbranch, hm]
        simp
      · rw [hpartner, hfind]
        simp [Variant.set_left]
      · simpa using hcur

/-- The two paths of compareVCFs agree step by step on an all-SNV,
single-chromosome input: the fold over source A produces identical
Comparison values. -/
lemma fold_eq (wIndel wSv : Int) (chr : String) (B : List Rec)
    (hB : ∀ r ∈ B, snvRecOn chr r) (hBs : B.Pairwise (fun x y => x.pos < y.pos)) :
    ∀ (restA : List Rec) (stf sts : PassState),
      (∀ r ∈ restA, snvRecOn chr r) →
      restA.Pairwise (fun x y => x.pos ≤ y.pos) →
      stf.cmp = sts.cmp →
      (∃ pre c rest, stf.cursor = some (c, rest) ∧ B = pre ++ c :: rest ∧
        ∀ x ∈ pre, ∀ a' ∈ restA, x.pos < a'.pos) →
      ∃ stf' sts',
        List.foldlM (stepRec wIndel wSv true B) stf restA = some stf' ∧
        List.foldlM (stepRec wIndel wSv false B) sts restA = some sts' ∧
        stf'.cmp = sts'.cmp := by
  intro restA
  induction restA with
  | nil =>
    intro stf sts _ _ hcmp _
    exact ⟨stf, sts, rfl, rfl, hcmp⟩
  | cons a restA' ih =>
    intro stf sts hA hAs hcmp hinv
    obtain ⟨pre, c, rest, hcur, hsplit, hbound⟩ := hinv
    have ha := hA a (by simp)
    obtain ⟨stf1, hf1, hf2, pre2, c2, rest2, hf3, hf4, hf5⟩ :=
      step_fast wIndel wSv chr B hB hBs stf a ha pre c rest hcur hsplit
        (fun x hx => hbound x hx a (by simp))
    obtain ⟨sts1, hs1, hs2⟩ := step_slow wIndel wSv chr B hB hBs sts a ha
    have hAs' := List.pairwise_cons.mp hAs
    obtain ⟨stf', sts', h1, h2, h3⟩ := ih stf1 sts1
      (fun r hr => hA r (by simp [hr]))
      hAs'.2
      (by rw [hf2, hs2, hcmp])
      ⟨pre2, c2, rest2, hf3, hf4, by
        intro x hx a' ha'
        have h5 := hf5 x hx
        have h6 := hAs'.1 a' ha'
        omega⟩
    refine ⟨stf', sts', ?_, ?_, h3⟩
    · rw [List.foldlM_cons, hf1]
      exact h1
    · rw [List.foldlM_cons, hs1]
      exact h2

/-- Claim C3 counterexample: one SNV in each source, same POS/REF/ALT
but different chromosomes.  The SNV matching predicate never compares
chromosomes, so the co-advancing cursor (whose stream is not filtered
by chromosome at the point of the test) reports a match that the
region-query path (which fetches only from a's chromosome) does not. -/
theorem claim_C3_counterexample :
    (compareVCFs [snvA] [snvChr2] 50 1000 true).map
        (fun c => c.matched .SNV) = some 1 ∧
      (compareVCFs [snvA] [snvChr2] 50 1000 false).map
        (fun c => c.matched .SNV) = some 0 ∧
      compareVCFs [snvA] [snvChr2] 50 1000 true ≠
        compareVCFs [snvA] [snvChr2] 50 1000 false :=
  ⟨by decide, by decide, by decide⟩

/-- Claim C3 as amended: the faster-SNV cursor path and the
region-query path produce identical results (the whole Comparison,
hence every primary recB, matched count and score) provided that both
sources hold only plain SNV records of one common chromosome in
canonical coordinates, source B is nonempty with strictly increasing
positions, and source A's positions are nondecreasing; in general the
two paths disagree (see the counterexample). -/
theorem claim_C3 (A B : List Rec) (wIndel wSv : Int) (chr : String)
    (hA : ∀ r ∈ A, snvRecOn chr r) (hB : ∀ r ∈ B, snvRecOn chr r)
    (hAs : A.Pairwise (fun x y => x.pos ≤ y.pos))
    (hBs : B.Pairwise (fun x y => x.pos < y.pos))
    (hBne : B ≠ []) :
    compareVCFs A B wIndel wSv true = compareVCFs A B wIndel wSv false := by
  cases B with
  | nil => exact absurd rfl hBne
  | cons b0 bs =>
    have hb0 := hB b0 (by simp)
    have hinit : initCursor (b0 :: bs) = some (b0, bs) := by
      cases bs <;> simp [initCursor, skipToSNV, hb0.1]
    obtain ⟨stf', sts', h1, h2, h3⟩ := fold_eq wIndel wSv chr (b0 :: bs) hB hBs A
      ⟨Comparison.empty, [], initCursor (b0 :: bs)⟩
      ⟨Comparison.empty, [], initCursor (b0 :: bs)⟩
      hA hAs rfl
      ⟨[], b0, bs, hinit, rfl, by simp⟩
    unfold compareVCFs
    rw [h1, h2]
    simp [h3]

/-- Witness for claim C3 at a concrete single-SNV pair of sources. -/
theorem claim_C3_witness :
    ([snvB1] : List Rec) ≠ [] ∧
      compareVCFs [snvA] [snvB1] 50 1000 true =
        compareVCFs [snvA] [snvB1] 50 1000 false :=
  ⟨by decide,
    claim_C3 [snvA] [snvB1] 50 1000 ("chr1") (by decide) (by decide) (by simp)
      (by simp) (by decide)⟩

end VCFC
